import Mathlib

/-!
# Verification of the build-plan generation and file-materialization pipeline

Shallow embedding of the core of the `wtc-project` repository
(`src/file_generator.py`, `src/project_manager.py`, prompt constants from
`src/config.py`) together with proofs about the frozen claims.

Modelling conventions:
* Python strings are Lean `String`s; the handful of `str` methods the source
  uses (`strip`, `splitlines`, `lower`, `startswith`, `find`, `rfind`,
  slicing, `strip("`")`) are modelled over `List Char`.  `strip()` is
  modelled with the six ASCII whitespace characters Python always strips;
  `splitlines` with the line boundaries `"\n"`, `"\r\n"`, `"\r"`;
  `lower` with ASCII lowering.  (Python additionally handles rare Unicode
  whitespace/line separators and Unicode case-folding; inputs exercising
  those are outside this model.)
* `json.loads` is modelled by an executable recursive-descent parser
  `json_loads` over a `Json` value type.  Numbers are kept as their source
  lexemes (no float semantics is needed by any claim); Python's non-standard
  `NaN`/`Infinity`/`-Infinity` literals are accepted as number lexemes.
  Escaped lone surrogates, which Python would keep as surrogate code points,
  are not representable in Lean's `Char` and are rejected by the model.
  A `JSONDecodeError` is modelled by the document string it carries
  (its `.doc` attribute); the exact human-readable message text (line/column
  information) is abstracted by `jsonDecodeMsg`.
* `pathlib.PurePosixPath` values are modelled by `PyPath` (an absolute flag
  plus the list of components, with empty and `"."` components dropped as
  `pathlib` does); `Path.resolve()` is modelled lexically against an ambient
  current working directory `cwd`.
* The upstream chat API is modelled by oracle functions supplying the reply
  of each call; the filesystem by an explicit chronological write log.
-/

namespace WTC

/-- The six ASCII characters stripped by Python's `str.strip()`. -/
def pyWs (c : Char) : Bool :=
  c = ' ' || c = '\t' || c = '\n' || c = '\r' || c = '\x0b' || c = '\x0c'

/-- Python `str.strip()` on a character list. -/
def pyStripList (l : List Char) : List Char :=
  ((l.dropWhile pyWs).reverse.dropWhile pyWs).reverse

/-- Python `str.strip()`. -/
def pyStrip (s : String) : String :=
  String.mk (pyStripList s.data)

/-- Python `str.lstrip()` on a character list. -/
def pyLStripList (l : List Char) : List Char :=
  l.dropWhile pyWs

/-- Python `str.rstrip()` on a character list. -/
def pyRStripList (l : List Char) : List Char :=
  (l.reverse.dropWhile pyWs).reverse

/-- Python `str.strip("`")` (strip backticks from both ends). -/
def stripBackticks (s : String) : String :=
  String.mk (((s.data.dropWhile (· = '`')).reverse.dropWhile (· = '`')).reverse)

/-- ASCII `str.lower()`. -/
def pyLower (s : String) : String :=
  String.mk (s.data.map Char.toLower)

/-- Drop one leading `\n` (the second half of a `\r\n` boundary). -/
def stripLeadNL : List Char → List Char
  | [] => []
  | c :: rest => if c = '\n' then rest else c :: rest

/-- Helper for `str.splitlines`: `cur` is the reversed current line.
Boundaries are `\n`, `\r\n`, `\r`; a trailing boundary does not produce a
final empty line. -/
def splitlinesAux (cur : List Char) : List Char → List (List Char)
  | [] => if cur = [] then [] else [cur.reverse]
  | c :: rest =>
    if c = '\n' then cur.reverse :: splitlinesAux [] rest
    else if c = '\r' then
      match rest with
      | c2 :: rest2 =>
        if c2 = '\n' then cur.reverse :: splitlinesAux [] rest2
        else cur.reverse :: splitlinesAux [] (c2 :: rest2)
      | [] => cur.reverse :: splitlinesAux [] []
    else splitlinesAux (c :: cur) rest

/-- Python `str.splitlines()` on a character list. -/
def splitlinesList (l : List Char) : List (List Char) :=
  splitlinesAux [] l

/-- Python `str.splitlines()`. -/
def splitlines (s : String) : List String :=
  (splitlinesList s.data).map String.mk

/-! ## JSON values and the model of `json.loads` -/

/-- JSON values as produced by `json.loads`.  Numbers keep their source
lexeme (no claim needs numeric semantics); Python's `NaN`, `Infinity` and
`-Infinity` extensions appear as `num` lexemes.  Objects are association
lists in first-insertion order with unique keys, as built by a Python
`dict`. -/
inductive Json where
  | null : Json
  | bool (b : Bool) : Json
  | num (lexeme : String) : Json
  | str (s : String) : Json
  | arr (items : List Json) : Json
  | obj (members : List (String × Json)) : Json

/-- JSON inter-token whitespace (the four characters of `json`'s `_w`). -/
def jsonWs (c : Char) : Bool :=
  c = ' ' || c = '\t' || c = '\n' || c = '\r'

/-- Skip JSON whitespace. -/
def skipWs (l : List Char) : List Char :=
  l.dropWhile jsonWs

/-- Integer part of the number grammar `(0|[1-9][0-9]*)`. -/
def parseIntPart : List Char → Option (List Char × List Char)
  | [] => none
  | c :: rest =>
    if c = '0' then some (['0'], rest)
    else if c.isDigit then
      some (c :: (rest.span Char.isDigit).1, (rest.span Char.isDigit).2)
    else none

/-- Fraction part `\.[0-9]+` of the number grammar (all or nothing). -/
def parseFracPart : List Char → Option (List Char × List Char)
  | a :: c :: rest =>
    if a = '.' then
      if c.isDigit then
        some ('.' :: c :: (rest.span Char.isDigit).1, (rest.span Char.isDigit).2)
      else none
    else none
  | _ => none

/-- One-or-more digits helper for the exponent part. -/
def parseExpDigits : List Char → Option (List Char × List Char)
  | c :: rest =>
    if c.isDigit then
      some (c :: (rest.span Char.isDigit).1, (rest.span Char.isDigit).2)
    else none
  | [] => none

/-- Exponent part `[eE][+-]?[0-9]+` of the number grammar (all or nothing). -/
def parseExpPart : List Char → Option (List Char × List Char)
  | [] => none
  | e :: rest =>
    if e = 'e' || e = 'E' then
      match rest with
      | [] => none
      | b :: rest2 =>
        if b = '+' then (parseExpDigits rest2).map (fun p => (e :: '+' :: p.1, p.2))
        else if b = '-' then (parseExpDigits rest2).map (fun p => (e :: '-' :: p.1, p.2))
        else (parseExpDigits (b :: rest2)).map (fun p => (e :: p.1, p.2))
    else none

/-- The optional leading minus sign of the number grammar. -/
def parseSign : List Char → List Char × List Char
  | [] => ([], [])
  | c :: rest => if c = '-' then (['-'], rest) else ([], c :: rest)

/-- The number lexer: Python `json`'s `NUMBER_RE`
`(-?(0|[1-9][0-9]*))(\.[0-9]+)?([eE][+-]?[0-9]+)?`, returning the matched
lexeme and the remaining characters. -/
def parseNum (cs : List Char) : Option (List Char × List Char) :=
  match parseIntPart (parseSign cs).2 with
  | none => none
  | some (ip, r1) =>
    match parseFracPart r1 with
    | some (fp, r2) =>
      (match parseExpPart r2 with
       | some (ep, r3) => some ((parseSign cs).1 ++ ip ++ fp ++ ep, r3)
       | none => some ((parseSign cs).1 ++ ip ++ fp, r2))
    | none =>
      match parseExpPart r1 with
      | some (ep, r3) => some ((parseSign cs).1 ++ ip ++ ep, r3)
      | none => some ((parseSign cs).1 ++ ip, r1)

/-- Value of one hex digit. -/
def hexVal (c : Char) : Option Nat :=
  if '0' ≤ c ∧ c ≤ '9' then some (c.toNat - '0'.toNat)
  else if 'a' ≤ c ∧ c ≤ 'f' then some (c.toNat - 'a'.toNat + 10)
  else if 'A' ≤ c ∧ c ≤ 'F' then some (c.toNat - 'A'.toNat + 10)
  else none

/-- Value of a 4-digit hex escape. -/
def hex4 (a b c d : Char) : Option Nat :=
  match hexVal a, hexVal b, hexVal c, hexVal d with
  | some x, some y, some z, some w => some (((x * 16 + y) * 16 + z) * 16 + w)
  | _, _, _, _ => none

/-- Single-character JSON escapes (`json`'s `BACKSLASH` table). -/
def escChar (c : Char) : Option Char :=
  if c = '"' then some '"'
  else if c = '\\' then some '\\'
  else if c = '/' then some '/'
  else if c = 'b' then some '\x08'
  else if c = 'f' then some '\x0c'
  else if c = 'n' then some '\n'
  else if c = 'r' then some '\r'
  else if c = 't' then some '\t'
  else none

/-- Combine a high surrogate `n` with a decoded second escape value. -/
def surrogatePair (n : Nat) : Option Nat → List Char → Option (Char × List Char)
  | none, _ => none
  | some m, rest2 =>
    if 0xDC00 ≤ m ∧ m ≤ 0xDFFF then
      some (Char.ofNat (0x10000 + (n - 0xD800) * 0x400 + (m - 0xDC00)), rest2)
    else none

/-- Decode one `\uXXXX` escape (and a following low surrogate when `n` is
a high surrogate) into a character and the remaining input.  Escaped lone
surrogates — which Python would keep as surrogate code points — are not
representable as a Lean `Char`, so such inputs are outside this model and
rejected. -/
def decodeUnicodeEscape (n : Nat) (rest : List Char) : Option (Char × List Char) :=
  if 0xD800 ≤ n ∧ n ≤ 0xDBFF then
    match rest with
    | e2 :: u2 :: a2 :: b2 :: c2 :: d2 :: rest2 =>
      if e2 = '\\' ∧ u2 = 'u' then surrogatePair n (hex4 a2 b2 c2 d2) rest2 else none
    | _ => none
  else if 0xDC00 ≤ n ∧ n ≤ 0xDFFF then none
  else some (Char.ofNat n, rest)

mutual

/-- Scan a JSON string body after the opening quote (strict mode: raw
control characters below `0x20` are rejected).  `fuel` bounds the
recursion: every function of this block decrements it on every call, so
the recursion is structural and ample fuel always suffices. -/
def parseStrBody : Nat → List Char → List Char → Option (String × List Char)
  | 0, _, _ => none
  | fuel + 1, acc, cs =>
    match cs with
    | [] => none
    | c :: rest =>
      if c = '"' then some (String.mk acc.reverse, rest)
      else if c = '\\' then parseEscape fuel acc rest
      else if c.toNat < 0x20 then none
      else parseStrBody fuel (c :: acc) rest

/-- Continue after a backslash. -/
def parseEscape : Nat → List Char → List Char → Option (String × List Char)
  | 0, _, _ => none
  | fuel + 1, acc, cs =>
    match cs with
    | [] => none
    | e :: rest2 =>
      if e = 'u' then parseUnicodeEscape fuel acc rest2
      else parseSimpleEscape fuel acc (escChar e) rest2

/-- Continue after a single-character escape. -/
def parseSimpleEscape : Nat → List Char → Option Char → List Char → Option (String × List Char)
  | 0, _, _, _ => none
  | _ + 1, _, none, _ => none
  | fuel + 1, acc, some ch, rest2 => parseStrBody fuel (ch :: acc) rest2

/-- Continue after `\u`, expecting four hex digits. -/
def parseUnicodeEscape : Nat → List Char → List Char → Option (String × List Char)
  | 0, _, _ => none
  | fuel + 1, acc, cs =>
    match cs with
    | a :: b :: c2 :: d :: rest3 => parseHexResult fuel acc (hex4 a b c2 d) rest3
    | _ => none

/-- Continue with the numeric value of the four hex digits. -/
def parseHexResult : Nat → List Char → Option Nat → List Char → Option (String × List Char)
  | 0, _, _, _ => none
  | _ + 1, _, none, _ => none
  | fuel + 1, acc, some n, rest3 => parseDecoded fuel acc (decodeUnicodeEscape n rest3)

/-- Continue with the decoded escape character. -/
def parseDecoded : Nat → List Char → Option (Char × List Char) → Option (String × List Char)
  | 0, _, _ => none
  | _ + 1, _, none => none
  | fuel + 1, acc, some (ch, rest4) => parseStrBody fuel (ch :: acc) rest4

end

/-- Insert a key into an association list with Python `dict` semantics:
a duplicate key keeps its original position but takes the new value. -/
def insertKey : List (String × Json) → String → Json → List (String × Json)
  | [], k, v => [(k, v)]
  | (k' , v') :: rest, k, v =>
    if k' = k then (k' , v) :: rest else (k' , v') :: insertKey rest k v

mutual

/-- Scan one JSON value (Python `json.scanner.py_make_scanner`'s
`_scan_once`), returning it and the remaining characters.  `fuel` bounds
the recursion: every function in this block decrements it on every call,
so the recursion is structural and the scanner evaluates by reduction;
`json_loads` supplies ample fuel for its input. -/
def parseValue : Nat → List Char → Option (Json × List Char)
  | 0, _ => none
  | _ + 1, [] => none
  | fuel + 1, ch :: rest =>
    if ch = '"' then (parseStrBody fuel [] rest).map (fun p => (Json.str p.1, p.2))
    else if ch = '{' then parseObjTail fuel (skipWs rest)
    else if ch = '[' then parseArrTail fuel (skipWs rest)
    else if (ch :: rest).take 4 = "null".data then some (Json.null, (ch :: rest).drop 4)
    else if (ch :: rest).take 4 = "true".data then some (Json.bool true, (ch :: rest).drop 4)
    else if (ch :: rest).take 5 = "false".data then some (Json.bool false, (ch :: rest).drop 5)
    else if (ch :: rest).take 3 = "NaN".data then some (Json.num "NaN", (ch :: rest).drop 3)
    else if (ch :: rest).take 8 = "Infinity".data then
      some (Json.num "Infinity", (ch :: rest).drop 8)
    else if (ch :: rest).take 9 = "-Infinity".data then
      some (Json.num "-Infinity", (ch :: rest).drop 9)
    else (parseNum (ch :: rest)).map (fun p => (Json.num (String.mk p.1), p.2))

/-- After `{` and whitespace: empty object or members
(`json.decoder.JSONObject`). -/
def parseObjTail : Nat → List Char → Option (Json × List Char)
  | 0, _ => none
  | _ + 1, [] => none
  | fuel + 1, c2 :: r2 =>
    if c2 = '}' then some (Json.obj [], r2) else parseMembers fuel (c2 :: r2) []

/-- After `[` and whitespace: empty array or items
(`json.decoder.JSONArray`). -/
def parseArrTail : Nat → List Char → Option (Json × List Char)
  | 0, _ => none
  | _ + 1, [] => none
  | fuel + 1, c2 :: r2 =>
    if c2 = ']' then some (Json.arr [], r2) else parseItems fuel (c2 :: r2) []

/-- Scan the members of a non-empty object: a `"`-quoted key first. -/
def parseMembers : Nat → List Char → List (String × Json) → Option (Json × List Char)
  | 0, _, _ => none
  | _ + 1, [], _ => none
  | fuel + 1, ch :: rest, acc =>
    if ch = '"' then parseMembersKey fuel (parseStrBody fuel [] rest) acc else none

/-- Continue with the scanned key. -/
def parseMembersKey :
    Nat → Option (String × List Char) → List (String × Json) → Option (Json × List Char)
  | 0, _, _ => none
  | _ + 1, none, _ => none
  | fuel + 1, some (key, r1), acc => parseMembersColon fuel key (skipWs r1) acc

/-- Expect `:` after the key and whitespace. -/
def parseMembersColon :
    Nat → String → List Char → List (String × Json) → Option (Json × List Char)
  | 0, _, _, _ => none
  | _ + 1, _, [], _ => none
  | fuel + 1, key, c2 :: r2, acc =>
    if c2 = ':' then parseMembersValue fuel key (parseValue fuel (skipWs r2)) acc else none

/-- Continue with the member's scanned value. -/
def parseMembersValue :
    Nat → String → Option (Json × List Char) → List (String × Json) → Option (Json × List Char)
  | 0, _, _, _ => none
  | _ + 1, _, none, _ => none
  | fuel + 1, key, some (v, r3), acc => parseMembersSep fuel (insertKey acc key v) (skipWs r3)

/-- Expect `,` (more members) or `}` (done) after a member. -/
def parseMembersSep :
    Nat → List (String × Json) → List Char → Option (Json × List Char)
  | 0, _, _ => none
  | _ + 1, _, [] => none
  | fuel + 1, acc2, c3 :: r4 =>
    if c3 = ',' then parseMembers fuel (skipWs r4) acc2
    else if c3 = '}' then some (Json.obj acc2, r4)
    else none

/-- Scan the items of a non-empty array: a value first. -/
def parseItems : Nat → List Char → List Json → Option (Json × List Char)
  | 0, _, _ => none
  | fuel + 1, cs, acc => parseItemsValue fuel (parseValue fuel cs) acc

/-- Continue with the scanned item. -/
def parseItemsValue :
    Nat → Option (Json × List Char) → List Json → Option (Json × List Char)
  | 0, _, _ => none
  | _ + 1, none, _ => none
  | fuel + 1, some (v, r1), acc => parseItemsSep fuel (acc ++ [v]) (skipWs r1)

/-- Expect `,` (more items) or `]` (done) after an item. -/
def parseItemsSep : Nat → List Json → List Char → Option (Json × List Char)
  | 0, _, _ => none
  | _ + 1, _, [] => none
  | fuel + 1, acc2, c2 :: r2 =>
    if c2 = ',' then parseItems fuel (skipWs r2) acc2
    else if c2 = ']' then some (Json.arr acc2, r2)
    else none

end

/-- Model of `json.loads`: skip leading whitespace, scan one value, demand
only whitespace afterwards.  Returns `none` where Python raises
`json.JSONDecodeError`. -/
def json_loads (s : String) : Option Json :=
  match parseValue (4 * s.data.length + 4) (skipWs s.data) with
  | some (v, rest) => if skipWs rest = [] then some v else none
  | none => none

example : json_loads "[1, 2]" = some (Json.arr [Json.num "1", Json.num "2"]) := rfl
example : json_loads (String.mk (' ' :: Char.ofNat 123 ::
      ("\"a\": [true, null, -1.5e+2]".data ++ [Char.ofNat 125, ' ']))) =
    some (Json.obj [("a", Json.arr [Json.bool true, Json.null, Json.num "-1.5e+2"])]) := rfl
example : json_loads "[1, 2,]" = none := rfl
example : json_loads "01" = none := rfl
example : json_loads "[\"a\\u00e9\"]" = some (Json.arr [Json.str "aé"]) := rfl
example : json_loads "NaN" = some (Json.num "NaN") := rfl
example : json_loads "[]" = some (Json.arr []) := rfl
example : json_loads "" = none := rfl

/-! ## The Plan Extractor: `extract_json_array` (`src/file_generator.py`) -/

/-- Errors raised by `extract_json_array`:
* `emptyResponse` — `ValueError("GreenPT returned an empty response.")`;
* `emptyFence` — `ValueError("GreenPT returned an empty fenced code block.")`;
* `jsonDecode doc` — `json.JSONDecodeError` whose `.doc` attribute is the
  document that failed to parse. -/
inductive ExtractErr where
  | emptyResponse : ExtractErr
  | emptyFence : ExtractErr
  | jsonDecode (doc : String) : ExtractErr
deriving DecidableEq, Repr

/-- Python `haystack.startswith(needle)`. -/
def strStartsWith (s pre : String) : Bool :=
  pre.data.isPrefixOf s.data

/-- Python `s.find(c)` (`none` for `-1`). -/
def strFind (s : String) (c : Char) : Option Nat :=
  s.data.findIdx? (· = c)

/-- Python `s.rfind(c)` (`none` for `-1`). -/
def strRFind (s : String) (c : Char) : Option Nat :=
  (s.data.reverse.findIdx? (· = c)).map (fun i => s.data.length - 1 - i)

/-- Python slice `s[start : stop]` on a character list. -/
def strSlice (s : String) (start stop : Nat) : String :=
  String.mk ((s.data.drop start).take (stop - start))

/-- Python `"\n".join(lines)` on character lists. -/
def joinNLData : List (List Char) → List Char
  | [] => []
  | [l] => l
  | l :: ls => l ++ '\n' :: joinNLData ls

/-- Python `"\n".join(lines)`. -/
def joinNL (lines : List String) : String :=
  String.mk (joinNLData (lines.map String.data))

/-- The fence-stripping of `extract_json_array`: split into lines, drop the
first line when its backtick-stripped, trimmed content is `"json"`
case-insensitively, drop the final line when it starts with a triple
backtick, re-join with `"\n"` and trim. -/
def fenceJoined (cleaned : String) : String :=
  let fenceLines := splitlines cleaned
  let fenceLines1 :=
    match fenceLines with
    | [] => fenceLines
    | first :: rest =>
      if pyLower (pyStrip (stripBackticks first)) = "json" then rest else fenceLines
  let fenceLines2 :=
    match fenceLines1.getLast? with
    | some last =>
      if strStartsWith (pyStrip last) "```" then fenceLines1.dropLast else fenceLines1
    | none => fenceLines1
  pyStrip (joinNL fenceLines2)

/-- The pre-parse stage of `extract_json_array`: trim, fail on an empty
input, strip a markdown fence, fail on an empty interior; return the text
handed to `json.loads`. -/
def extractCleaned (raw_text : String) : Except ExtractErr String :=
  if pyStrip raw_text = "" then .error .emptyResponse
  else if strStartsWith (pyStrip raw_text) "```" then
    if fenceJoined (pyStrip raw_text) = "" then .error .emptyFence
    else .ok (fenceJoined (pyStrip raw_text))
  else .ok (pyStrip raw_text)

/-- The bracket-scan fallback: the substring from the first `[` to the last
`]` inclusively, when both exist in that order (`cleaned.find("[")`,
`cleaned.rfind("]")`, `start < end`). -/
def bracketSnippet (cleaned : String) : Option String :=
  match strFind cleaned '[', strRFind cleaned ']' with
  | some s, some e => if s < e then some (strSlice cleaned s (e + 1)) else none
  | _, _ => none

/-- The `except json.JSONDecodeError` handler of `extract_json_array`:
locate the bracket snippet and re-parse it.  When `json.loads(snippet)`
raises, that new error (document: the snippet) propagates; the bare
`raise` re-raising the original error (document: `cleaned`) is reached
only when no usable bracket pair exists. -/
def extractFallback (cleaned : String) : Except ExtractErr Json :=
  match bracketSnippet cleaned with
  | some snippetRaw =>
    let snippet := pyStrip snippetRaw
    if snippet = "" then .error (.jsonDecode cleaned)
    else
      match json_loads snippet with
      | some v => .ok v
      | none => .error (.jsonDecode snippet)
  | none => .error (.jsonDecode cleaned)

/-- The `try`/`except` of `extract_json_array`: strict parse, falling back
to the bracket scan. -/
def extractFromCleaned (cleaned : String) : Except ExtractErr Json :=
  match json_loads cleaned with
  | some v => .ok v
  | none => extractFallback cleaned

/-- `extract_json_array` (`src/file_generator.py`, lines 176-204): extract a
JSON array from raw text, handling markdown fences, with a bracket-scan
fallback on parse failure. -/
def extract_json_array (raw_text : String) : Except ExtractErr Json :=
  match extractCleaned raw_text with
  | .error e => .error e
  | .ok cleaned => extractFromCleaned cleaned

example : extract_json_array "```\n[1,2]\n```" = .ok (Json.arr [Json.num "1", Json.num "2"]) := rfl
example : extract_json_array "```json\n[1,2]\n```" =
    .ok (Json.arr [Json.num "1", Json.num "2"]) := rfl
example : extract_json_array "```\n\n```" = .error (.jsonDecode "```") := rfl
example : extract_json_array "```json\n```" = .error .emptyFence := rfl
example : extract_json_array "```" = .error .emptyFence := rfl
example : extract_json_array "```[1,2]```" = .error .emptyFence := rfl
example : extract_json_array "xx[\x7d]yy" = .error (.jsonDecode "[\x7d]") := rfl
example : extract_json_array "```JSON\n[3]\n```" = .ok (Json.arr [Json.num "3"]) := rfl
example : extract_json_array "prose [1,2] more" =
    .ok (Json.arr [Json.num "1", Json.num "2"]) := rfl
example : extract_json_array "]..[" = .error (.jsonDecode "]..[") := rfl
example : extract_json_array "  " = .error .emptyResponse := rfl

/-! ## The Path Sandbox: `ensure_safe_path` (`src/project_manager.py`) -/

/-- A `pathlib.PurePosixPath`: an absolute flag and the components, with
empty and `"."` components dropped exactly as `pathlib` drops them when a
path string is parsed (`".."` components are kept). -/
structure PyPath where
  absolute : Bool
  segs : List String
deriving DecidableEq, Repr

/-- Split a character list on a separator character (Python
`s.split(sep)`; the empty string yields `[""]`). -/
def splitOnChar (sep : Char) : List Char → List (List Char)
  | [] => [[]]
  | c :: rest =>
    match splitOnChar sep rest with
    | [] => [[]]
    | h :: t => if c = sep then [] :: h :: t else (c :: h) :: t

/-- Parse a path string into a `PyPath` (`pathlib.PurePosixPath(s)`). -/
def parsePath (s : String) : PyPath :=
  { absolute := strStartsWith s "/"
    segs := ((splitOnChar '/' s.data).map String.mk).filter (fun seg => seg ≠ "" && seg ≠ ".") }

/-- `pathlib`'s `.name`: the final path component, or `""` if there is
none. -/
def pathName (s : String) : String :=
  ((parsePath s).segs.getLast?).getD ""

example : pathName "backend/Dockerfile" = "Dockerfile" := rfl
example : pathName "DOCKERFILE/" = "DOCKERFILE" := rfl
example : pathName "a/.." = ".." := rfl
example : pathName "" = "" := rfl

/-- `base / rel` for `pathlib` paths: an absolute right operand replaces
the left one. -/
def joinPath (base rel : PyPath) : PyPath :=
  if rel.absolute then rel else { absolute := base.absolute, segs := base.segs ++ rel.segs }

/-- Lexical `".."` elimination over absolute components (at the root,
`".."` stays at the root). -/
def resolveSegs (segs : List String) : List String :=
  segs.foldl (fun acc seg => if seg = ".." then acc.dropLast else acc ++ [seg]) []

/-- `Path.resolve()` modelled lexically: a relative path is made absolute
against the resolved current working directory `cwd`, then `".."`
components are eliminated.  The result is the component list of an
absolute path.  (Symlink resolution is outside this model.) -/
def resolvePath (cwd : List String) (p : PyPath) : List String :=
  resolveSegs ((if p.absolute then [] else cwd) ++ p.segs)

/-- Render an absolute component list as a path string. -/
def absPathString (segs : List String) : String :=
  "/" ++ String.intercalate "/" segs

/-- The error raised by `ensure_safe_path`
(`ValueError(f"Cannot write {relative_path} outside of {base_dir}. ...")`),
carrying the offending relative path and the base directory. -/
inductive PathErr where
  | traversal (relative_path : PyPath) (base_dir : PyPath) : PathErr
deriving DecidableEq, Repr

/-- `ensure_safe_path` (`src/project_manager.py`, lines 19-27): resolve
`base_dir / relative_path` and verify the result equals the resolved base
directory or lies strictly under it (`base_resolved in target_path.parents`
is exactly the strict-prefix relation on absolute component lists);
otherwise fail.  Pure: no directory or file is created.  `cwd` is the
ambient working directory `Path.resolve()` consults for relative paths. -/
def ensure_safe_path (cwd : List String) (base_dir relative_path : PyPath) :
    Except PathErr (List String) :=
  let base_resolved := resolvePath cwd base_dir
  let target_path := resolvePath cwd (joinPath base_dir relative_path)
  if base_resolved = target_path ∨ (base_resolved <+: target_path ∧ base_resolved ≠ target_path) then
    .ok target_path
  else
    .error (.traversal relative_path base_dir)

example : ensure_safe_path [] (parsePath "/projects/foo") (parsePath "../../etc/passwd") =
    .error (.traversal (parsePath "../../etc/passwd") (parsePath "/projects/foo")) := rfl
example : ensure_safe_path [] (parsePath "/projects/foo") (parsePath "backend/app.py") =
    .ok ["projects", "foo", "backend", "app.py"] := rfl

/-! ## FileSpec plans and the Plan Augmenter (`src/file_generator.py`) -/

/-- One planned output file: the four JSON string fields of a plan entry.
`none` models an absent field (plan entries are duck-typed dicts in the
source; the data model fixes these four optional string fields). -/
structure FileSpec where
  path : Option String
  type : Option String
  description : Option String
  instructions : Option String
deriving DecidableEq, Repr

/-- Python `a or b` for strings: `b` when `a` is empty (falsy). -/
def pyOrStr (a b : String) : String :=
  if a = "" then b else a

/-- Substring test, Python `pat in s`. -/
def containsSubAux (pat : List Char) : List Char → Bool
  | [] => pat.isEmpty
  | c :: rest => pat.isPrefixOf (c :: rest) || containsSubAux pat rest

/-- Substring test, Python `pat in s`. -/
def strContains (s pat : String) : Bool :=
  containsSubAux pat.data s.data

/-- Stack hints inferred from a build plan by `_collect_stack_hints`. -/
structure StackHints where
  has_python : Bool
  has_node : Bool
  has_frontend : Bool
  python_manifests : List String
  node_manifests : List String
deriving DecidableEq, Repr

/-- The `python_tokens` set of `_collect_stack_hints` (membership tests
only, so the iteration order of the Python set is irrelevant). -/
def pythonTokens : List String :=
  [".py", "fastapi", "flask", "django", "streamlit", "requirements.txt",
   "pyproject.toml", "poetry.lock", "pipfile", "pipfile.lock"]

/-- The `node_tokens` set of `_collect_stack_hints`. -/
def nodeTokens : List String :=
  ["package.json", "vite.config", "next.config", ".tsx", ".jsx",
   "pnpm-lock.yaml", "yarn.lock", "package-lock.json"]

/-- The Python dependency-manifest file names recognised by file name. -/
def pythonManifestNames : List String :=
  ["requirements.txt", "pyproject.toml", "poetry.lock", "pipfile", "pipfile.lock"]

/-- The Node dependency-manifest file names recognised by file name. -/
def nodeManifestNames : List String :=
  ["package.json", "package-lock.json", "yarn.lock", "pnpm-lock.yaml"]

/-- The frontend directory-name substrings. -/
def frontendTokens : List String :=
  ["frontend/", "client/", "web/", "ui/"]

/-- One iteration of the `_collect_stack_hints` loop. -/
def collectStackHintsStep (hints : StackHints) (spec : FileSpec) : StackHints :=
  let path_value := pyLower (spec.path.getD "")
  let detail_blob := String.intercalate " "
    (([path_value, pyLower (spec.description.getD ""), pyLower (spec.instructions.getD "")]).filter
      (fun s => s ≠ ""))
  let hints :=
    if pythonTokens.any (fun token => strContains detail_blob token) then
      { hints with has_python := true }
    else hints
  let hints :=
    if nodeTokens.any (fun token => strContains detail_blob token) then
      { hints with has_node := true }
    else hints
  let file_name := pyLower (pathName path_value)
  let hints :=
    if pythonManifestNames.contains file_name then
      { hints with
        python_manifests := hints.python_manifests ++ [pyOrStr (spec.path.getD "") file_name]
        has_python := true }
    else hints
  let hints :=
    if nodeManifestNames.contains file_name then
      { hints with
        node_manifests := hints.node_manifests ++ [pyOrStr (spec.path.getD "") file_name]
        has_node := true }
    else hints
  if frontendTokens.any (fun token => strContains path_value token) then
    { hints with has_frontend := true }
  else hints

/-- `_collect_stack_hints` (`src/file_generator.py`, lines 24-96). -/
def _collect_stack_hints (plan : List FileSpec) : StackHints :=
  plan.foldl collectStackHintsStep
    { has_python := false, has_node := false, has_frontend := false
      python_manifests := [], node_manifests := [] }

/-- `_summarize_plan` (`src/file_generator.py`, lines 99-111); the source's
`max_items` default is 8. -/
def _summarize_plan (plan : List FileSpec) (max_items : Nat) : List String :=
  let summaries := (plan.take max_items).map (fun spec =>
    let path_value := pyOrStr (spec.path.getD "") "(unnamed file)"
    let description := pyStrip (spec.description.getD "")
    if description ≠ "" then path_value ++ " – " ++ description else path_value)
  if plan.length > max_items then summaries ++ ["…"] else summaries

/-- `_dockerfile_instruction_text` (`src/file_generator.py`, lines
114-158). -/
def _dockerfile_instruction_text (plan : List FileSpec) : String :=
  let hints := _collect_stack_hints plan
  let instructions : List String :=
    ["Create a production-ready Dockerfile that containers the generated application.",
     "General rules:",
     "- Always start with an official base image, pin the major version, and avoid placeholder text.",
     "- Use `/app` as the working directory and copy dependency manifests before the rest to improve build caching.",
     "- Install only what the project needs and clean up build caches.",
     "- Expose the runtime port mentioned in the blueprint (default to 8080 if not specified).",
     "- Finish with a CMD or ENTRYPOINT that starts the main service discussed in the blueprint."]
  let instructions := instructions ++
    (if hints.python_manifests ≠ [] then
      ["- Use `python:3.11-slim` for Python services and `pip install --no-cache-dir -r " ++
        String.intercalate ", " hints.python_manifests ++ "` to install dependencies."]
     else if hints.has_python then
      ["- If the backend is Python, install dependencies from requirements.txt/pyproject and run the ASGI/WSGI server via uvicorn or gunicorn."]
     else [])
  let instructions := instructions ++
    (if hints.node_manifests ≠ [] then
      ["- Use a Node.js 18 builder stage to run `npm install` (or pnpm/yarn) against " ++
        String.intercalate ", " hints.node_manifests ++
        " and build frontend assets before copying them into the runtime image."]
     else if hints.has_node || hints.has_frontend then
      ["- If a frontend exists, add a `node:18-alpine` build stage that compiles the UI (npm/yarn build) and copy the output into the server image or serve via a lightweight web server."]
     else [])
  let instructions := instructions ++
    (if hints.has_python && hints.has_node then
      ["- When both backend and frontend layers exist, keep the backend runtime lean (python:3.11-slim) and copy in the pre-built frontend assets or serve them via the backend static directory."]
     else [])
  let summaries := _summarize_plan plan 8
  let instructions := instructions ++
    (if summaries ≠ [] then
      "Key files to consider:" :: summaries.map (fun line => "  - " ++ line)
     else [])
  String.intercalate "\n" instructions

/-- The predicate applied to each entry by `_plan_contains_dockerfile`: a
truthy `path` whose final component is `"dockerfile"` case-insensitively. -/
def isDockerfileSpec (spec : FileSpec) : Bool :=
  match spec.path with
  | none => false
  | some p => if p = "" then false else pyLower (pathName p) = "dockerfile"

/-- `_plan_contains_dockerfile` (`src/file_generator.py`, lines 13-21). -/
def _plan_contains_dockerfile (plan : List FileSpec) : Bool :=
  plan.any isDockerfileSpec

/-- The `docker_spec` dict literal of `ensure_dockerfile_entry`. -/
def docker_spec (plan : List FileSpec) : FileSpec :=
  { path := some "Dockerfile"
    type := some "infrastructure"
    description := some "Container configuration to run the generated project end-to-end."
    instructions := some (_dockerfile_instruction_text plan) }

/-- `ensure_dockerfile_entry` (`src/file_generator.py`, lines 161-173):
return the plan unchanged when it already has a Dockerfile entry, else
append the synthesized Dockerfile specification. -/
def ensure_dockerfile_entry (plan : List FileSpec) : List FileSpec :=
  if _plan_contains_dockerfile plan then plan else plan ++ [docker_spec plan]

/-! ## Prompt templates (`src/config.py`) -/

/-- `BUILD_PLAN_PROMPT` up to the `{blueprint}` placeholder. -/
def buildPlanPromptPre : String :=
  "\nYou are a senior software architect who converts a blueprint into a concrete build plan.\n\nBlueprint:\n"

/-- `BUILD_PLAN_PROMPT` after the `{blueprint}` placeholder. -/
def buildPlanPromptPost : String :=
  "\n\nOutput a JSON array. Each element must be an object with:\n- \"path\": POSIX-style relative file path (e.g., \"backend/app.py\").\n- \"type\": one of [\"backend\", \"frontend\", \"infrastructure\", \"config\", \"docs\", \"tests\"].\n- \"description\": short human summary.\n- \"instructions\": bullet list (single string) describing must-have contents.\n\nInclude at least one README, infra/IaC file, env example, backend code, frontend code, and tests when applicable.\nOnly return JSON, no prose.\n"

/-- `BUILD_PLAN_PROMPT.format(blueprint=blueprint)`. -/
def buildPlanPrompt (blueprint : String) : String :=
  buildPlanPromptPre ++ blueprint ++ buildPlanPromptPost

/-- `FILE_GENERATION_PROMPT.format(...)` (`src/config.py`, lines 205-217). -/
def fileGenerationPrompt (path file_type description instructions blueprint : String) : String :=
  "\nYou are generating the file `" ++ path ++ "` for a hackathon project.\n\nFile context:\n- Category: " ++
    file_type ++ "\n- Description: " ++ description ++ "\n- Requirements: " ++ instructions ++
    "\n\nProject blueprint:\n" ++ blueprint ++
    "\n\nProduce the complete file content ready to be written to disk. Do not wrap with markdown fences.\n"

/-! ## The File Materializer (`src/file_generator.py`) -/

/-- `generate_file_content` (`src/file_generator.py`, lines 245-259): one
model call with a file-specific prompt.  `chat` is the upstream
`call_greenpt_chat` with tone/model/token/timeout arguments fixed. -/
def generate_file_content (chat : String → String) (file_spec : FileSpec) (blueprint : String) :
    String :=
  chat (fileGenerationPrompt (file_spec.path.getD "file.txt") (file_spec.type.getD "config")
    (file_spec.description.getD "") (file_spec.instructions.getD "") blueprint)

/-- Outcome of a materialization run: the returned `created_files` (or the
raised error) together with the chronological log of `write_text` calls
that happened before the run ended.  Writes performed before a failing
entry remain on disk (`§5`: no rollback). -/
structure WriteOutcome where
  result : Except PathErr (List (List String))
  writes : List (List String × String)

/-- The per-entry loop of `write_files_from_plan`: resolve
`spec.get("path", "output.txt")` through the Path Sandbox (a failure
aborts the whole run), generate content and write it.  `mkdir` and the
progress callback perform no modelled observable effect. -/
def writeFilesAux (cwd : List String) (base_dir : PyPath) (blueprint : String)
    (chat : String → String) : List FileSpec → WriteOutcome
  | [] => { result := .ok [], writes := [] }
  | spec :: rest =>
    let rel_path := parsePath (spec.path.getD "output.txt")
    match ensure_safe_path cwd base_dir rel_path with
    | .error e => { result := .error e, writes := [] }
    | .ok target_path =>
      let content := generate_file_content chat spec blueprint
      let tail := writeFilesAux cwd base_dir blueprint chat rest
      { result :=
          match tail.result with
          | .ok files => .ok (target_path :: files)
          | .error e => .error e
        writes := (target_path, content) :: tail.writes }

/-- `write_files_from_plan` (`src/file_generator.py`, lines 262-284). -/
def write_files_from_plan (cwd : List String) (plan : List FileSpec) (base_dir : PyPath)
    (blueprint : String) (chat : String → String) : WriteOutcome :=
  writeFilesAux cwd base_dir blueprint chat plan

/-! ## The Build Plan Generator over raw JSON values
(`generate_build_plan`, `src/file_generator.py`) -/

/-- Python exceptions that can escape the duck-typed plan handling:
`AttributeError` (`.get`/`.lower`/`.strip` on a non-dict or non-string)
and `TypeError` (`Path()` of a non-string). -/
inductive PyErr where
  | attributeError : PyErr
  | typeError : PyErr
deriving DecidableEq, Repr

/-- Python `dict.get` on a decoded object. -/
def dictGet (d : List (String × Json)) (k : String) : Option Json :=
  (d.find? (fun p => p.1 == k)).map Prod.snd

/-- Truthiness of a number lexeme (`bool(0) = bool(0.0) = False`;
`NaN`/`Infinity` are truthy). -/
def numTruthy (lexeme : String) : Bool :=
  let mantissa := lexeme.data.takeWhile (fun c => c ≠ 'e' && c ≠ 'E')
  !(mantissa.any Char.isDigit) || mantissa.any (fun c => '1' ≤ c && c ≤ '9')

/-- Python truthiness of a decoded JSON value. -/
def jsonTruthy : Json → Bool
  | .null => false
  | .bool b => b
  | .num lexeme => numTruthy lexeme
  | .str s => s ≠ ""
  | .arr items => !items.isEmpty
  | .obj members => !members.isEmpty

/-- `_plan_contains_dockerfile` over raw decoded values, with the Python
errors it can raise: `spec.get` on a non-dict element raises
`AttributeError`; `Path(path_value)` on a truthy non-string raises
`TypeError`.  The loop is lazy: it returns `True` at the first match
without touching later elements. -/
def planContainsDockerfileJ : List Json → Except PyErr Bool
  | [] => .ok false
  | spec :: rest =>
    match spec with
    | .obj d =>
      match dictGet d "path" with
      | none => planContainsDockerfileJ rest
      | some v =>
        if jsonTruthy v then
          match v with
          | .str p =>
            if pyLower (pathName p) = "dockerfile" then .ok true
            else planContainsDockerfileJ rest
          | _ => .error .typeError
        else planContainsDockerfileJ rest
    | _ => .error .attributeError

/-- View of a decoded field value as the augmenter sees it: a falsy value
behaves exactly like an absent field in every `x or default` the augmenter
performs, while a truthy non-string makes its `.lower()`/`.strip()` raise
`AttributeError` (`none` here). -/
def augField : Option Json → Option (Option String)
  | none => some none
  | some v =>
    match v with
    | .str s => some (some s)
    | w => if jsonTruthy w then none else some none

/-- View a decoded plan entry as a `FileSpec` for the augmenter (the
`type` field is never read by the augmenter and is dropped). -/
def toAugSpec : Json → Option FileSpec
  | .obj d =>
    (match augField (dictGet d "path"), augField (dictGet d "description"),
        augField (dictGet d "instructions") with
     | some p, some de, some i => some { path := p, type := none, description := de, instructions := i }
     | _, _, _ => none)
  | _ => none

/-- The `docker_spec` dict as a decoded JSON object (key order of the
source literal). -/
def dockerSpecJson (specs : List FileSpec) : Json :=
  Json.obj
    [("path", .str "Dockerfile"),
     ("type", .str "infrastructure"),
     ("description", .str "Container configuration to run the generated project end-to-end."),
     ("instructions", .str (_dockerfile_instruction_text specs))]

/-- `ensure_dockerfile_entry` over raw decoded values: the containment scan
can raise; otherwise the synthesized entry is appended, raising
`AttributeError` when a truthy non-string `path`/`description`/
`instructions` value reaches the augmenter's string operations. -/
def ensureDockerfileEntryJ (plan : List Json) : Except PyErr (List Json) :=
  match planContainsDockerfileJ plan with
  | .error e => .error e
  | .ok true => .ok plan
  | .ok false =>
    match plan.mapM toAugSpec with
    | some specs => .ok (plan ++ [dockerSpecJson specs])
    | none => .error .attributeError

/-- The per-attempt errors recorded in `last_error`. -/
inductive LoopErr where
  | extractErr (e : ExtractErr) : LoopErr
  | emptyPlan : LoopErr
deriving DecidableEq, Repr

/-- Abstract stand-in for `str(json.JSONDecodeError)`: CPython renders a
message with line/column/char positions; this model only tracks the
document, so the rendering is a fixed function of it. -/
def jsonDecodeMsg (doc : String) : String :=
  "Could not decode JSON document: " ++ doc

/-- `str(...)` of the extractor's errors. -/
def strOfExtractErr : ExtractErr → String
  | .emptyResponse => "GreenPT returned an empty response."
  | .emptyFence => "GreenPT returned an empty fenced code block."
  | .jsonDecode doc => jsonDecodeMsg doc

/-- `str(last_error)`. -/
def strOfLoopErr : LoopErr → String
  | .extractErr e => strOfExtractErr e
  | .emptyPlan => "Build plan response was empty."

/-- The final `ValueError` message of `generate_build_plan` (attempt count,
last error, raw response appended when one was recorded). -/
def buildPlanFailMsg (attempts : Nat) (lastErr : Option LoopErr) (lastRaw : Option String) :
    String :=
  let msg := "Could not parse build plan JSON after " ++ toString attempts ++
    " attempt(s): " ++ (match lastErr with | some e => strOfLoopErr e | none => "None")
  match lastRaw with
  | some raw => msg ++ "\nRaw response:\n" ++ raw
  | none => msg

/-- Terminal failures of `generate_build_plan`: the documented
`ValueError` with its message, or an uncaught Python exception escaping
the augmentation step. -/
inductive GenErr where
  | pyErr (e : PyErr) : GenErr
  | buildPlanError (msg : String) : GenErr

/-- Outcome of `generate_build_plan`: the returned plan or raised error,
plus the chronological list of prompts sent to the model. -/
structure GenOutcome where
  result : Except GenErr (List Json)
  prompts : List String

/-- The terse reminder appended to the prompt of every attempt after the
first. -/
def jsonOnlyReminder : String :=
  "\n\nReminder: Return a JSON array only. No prose."

/-- The `for attempt in range(max_retries + 1)` loop of
`generate_build_plan`: `attempt` is the current index, `remaining` the
number of attempts left.  Only `json.JSONDecodeError`/`ValueError` from
extraction are caught; the validation `not isinstance(plan, list) or not
plan` records `ValueError("Build plan response was empty.")`; the
augmentation happens outside the `try` and its exceptions abort the loop. -/
def generateBuildPlanLoop (oracle : Nat → String) (basePrompt : String) (total : Nat) :
    Nat → Nat → Option LoopErr → Option String → GenOutcome
  | _, 0, lastErr, lastRaw =>
    { result := .error (.buildPlanError (buildPlanFailMsg total lastErr lastRaw)), prompts := [] }
  | attempt, remaining + 1, _, _ =>
    let prompt :=
      if attempt = 0 then basePrompt
      else basePrompt ++ jsonOnlyReminder
    let plan_text := oracle attempt
    match extract_json_array plan_text with
    | .error parse_err =>
      let next := generateBuildPlanLoop oracle basePrompt total (attempt + 1) remaining
        (some (.extractErr parse_err)) (some plan_text)
      { next with prompts := prompt :: next.prompts }
    | .ok plan =>
      match plan with
      | .arr items =>
        if items.isEmpty then
          let next := generateBuildPlanLoop oracle basePrompt total (attempt + 1) remaining
            (some .emptyPlan) (some plan_text)
          { next with prompts := prompt :: next.prompts }
        else
          match ensureDockerfileEntryJ items with
          | .ok augmented => { result := .ok augmented, prompts := [prompt] }
          | .error e => { result := .error (.pyErr e), prompts := [prompt] }
      | _ =>
        let next := generateBuildPlanLoop oracle basePrompt total (attempt + 1) remaining
          (some .emptyPlan) (some plan_text)
        { next with prompts := prompt :: next.prompts }

/-- `generate_build_plan` (`src/file_generator.py`, lines 207-242).
`oracle i` is the reply of the `i`-th `call_greenpt_chat` call. -/
def generate_build_plan (oracle : Nat → String) (blueprint : String) (max_retries : Nat) :
    GenOutcome :=
  generateBuildPlanLoop oracle (buildPlanPrompt blueprint) (max_retries + 1) 0 (max_retries + 1)
    none none

example :
    (generate_build_plan (fun _ => "[\"a\"]") "bp" 1).result =
      .error (.pyErr .attributeError) := rfl
example :
    (generate_build_plan (fun _ => "[\"a\"]") "bp" 1).prompts = [buildPlanPrompt "bp"] := rfl

/-- Number of container-descriptor (Dockerfile) entries in a plan, counted
with the source's own per-entry predicate. -/
def dockerEntryCount (plan : List FileSpec) : Nat :=
  (plan.filter isDockerfileSpec).length

/-- A reply is "bad" for an attempt when it does not extract to a
non-empty JSON list (extraction error, non-list value, or empty list). -/
def attemptBad (reply : String) : Prop :=
  ∀ items, extract_json_array reply = .ok (.arr items) → items = []

/-- The `last_error` a bad attempt records: the extraction error, or the
empty-plan `ValueError` when extraction succeeded but validation failed. -/
def lastErrOf (reply : String) : LoopErr :=
  match extract_json_array reply with
  | .error e => .extractErr e
  | .ok _ => .emptyPlan

/-! ## Claim C5: Path Sandbox concrete contract -/

/-- C5.  For base directory `/projects/foo` (under any working directory —
the base is absolute, so `cwd` is irrelevant), the relative path
`../../etc/passwd` fails with the path-traversal `ValueError`, and the
relative path `backend/app.py` succeeds returning the absolute path
`/projects/foo/backend/app.py`.  `ensure_safe_path` is a pure function of
its arguments (its type has no filesystem component), so no directory or
file is created on success. -/
theorem ensure_safe_path_concrete_contract :
    ∀ cwd : List String,
      ensure_safe_path cwd (parsePath "/projects/foo") (parsePath "../../etc/passwd") =
        .error (.traversal (parsePath "../../etc/passwd") (parsePath "/projects/foo")) ∧
      ensure_safe_path cwd (parsePath "/projects/foo") (parsePath "backend/app.py") =
        .ok ["projects", "foo", "backend", "app.py"] ∧
      absPathString ["projects", "foo", "backend", "app.py"] = "/projects/foo/backend/app.py" :=
  fun _ => ⟨rfl, rfl, rfl⟩

/-! ## Claims C2 and C8: the Plan Augmenter -/

theorem isDockerfileSpec_iff (spec : FileSpec) :
    isDockerfileSpec spec = true ↔
      ∃ p, spec.path = some p ∧ pyLower (pathName p) = "dockerfile" := by
  cases hp : spec.path with
  | none => simp [isDockerfileSpec, hp]
  | some p =>
    simp only [isDockerfileSpec, hp, Option.some.injEq]
    by_cases h : p = ""
    · subst h
      simp only [if_pos rfl]
      constructor
      · intro hfalse
        cases hfalse
      · rintro ⟨q, hq, hname⟩
        subst hq
        exact absurd hname (by decide)
    · simp only [if_neg h, decide_eq_true_eq]
      constructor
      · intro hname
        exact ⟨p, rfl, hname⟩
      · rintro ⟨q, hq, hname⟩
        subst hq
        exact hname

theorem plan_contains_dockerfile_iff (plan : List FileSpec) :
    _plan_contains_dockerfile plan = true ↔
      ∃ spec ∈ plan, ∃ p, spec.path = some p ∧ pyLower (pathName p) = "dockerfile" := by
  unfold _plan_contains_dockerfile
  rw [List.any_eq_true]
  constructor
  · rintro ⟨spec, hmem, hspec⟩
    exact ⟨spec, hmem, (isDockerfileSpec_iff spec).mp hspec⟩
  · rintro ⟨spec, hmem, hspec⟩
    exact ⟨spec, hmem, (isDockerfileSpec_iff spec).mpr hspec⟩

/-- C2.  For every plan: if some entry has a `path` whose final component
is `"dockerfile"` case-insensitively, the Plan Augmenter returns the plan
unchanged; otherwise it returns the plan with exactly one new entry
appended at the end, whose `path` is `"Dockerfile"` and whose `type` is
`"infrastructure"`.  In both cases every pre-existing entry is preserved
unchanged and in order (an entry with an absent `path` has no final
component; for a present `path`, `pathName` is `pathlib`'s `.name`). -/
theorem ensure_dockerfile_entry_cases :
    ∀ plan : List FileSpec,
      ((∃ spec ∈ plan, ∃ p, spec.path = some p ∧ pyLower (pathName p) = "dockerfile") →
        ensure_dockerfile_entry plan = plan) ∧
      ((¬ ∃ spec ∈ plan, ∃ p, spec.path = some p ∧ pyLower (pathName p) = "dockerfile") →
        ensure_dockerfile_entry plan = plan ++ [docker_spec plan] ∧
        (docker_spec plan).path = some "Dockerfile" ∧
        (docker_spec plan).type = some "infrastructure") := by
  intro plan
  constructor
  · intro hex
    unfold ensure_dockerfile_entry
    rw [if_pos ((plan_contains_dockerfile_iff plan).mpr hex)]
  · intro hnex
    refine ⟨?_, rfl, rfl⟩
    unfold ensure_dockerfile_entry
    rw [if_neg (fun h => hnex ((plan_contains_dockerfile_iff plan).mp h))]

/-- Witness for C2 at concrete inputs: a plan already containing
`sub/Dockerfile` is returned unchanged, and the empty plan gets the
Dockerfile entry appended. -/
theorem ensure_dockerfile_entry_cases_witness :
    ensure_dockerfile_entry
        [{ path := some "sub/Dockerfile", type := none, description := none, instructions := none }] =
      [{ path := some "sub/Dockerfile", type := none, description := none, instructions := none }] ∧
    ensure_dockerfile_entry [] = [] ++ [docker_spec []] :=
  ⟨(ensure_dockerfile_entry_cases _).1
      ⟨_, List.mem_singleton.mpr rfl, "sub/Dockerfile", rfl, by decide⟩,
    ((ensure_dockerfile_entry_cases []).2 (by simp)).1⟩

theorem plan_contains_dockerfile_count (plan : List FileSpec) :
    _plan_contains_dockerfile plan = true ↔ 1 ≤ dockerEntryCount plan := by
  unfold _plan_contains_dockerfile dockerEntryCount
  rw [List.any_eq_true]
  constructor
  · rintro ⟨spec, hmem, hspec⟩
    have : spec ∈ plan.filter isDockerfileSpec := List.mem_filter.mpr ⟨hmem, hspec⟩
    exact Nat.succ_le_of_lt (List.length_pos.mpr (fun hemp => by simp [hemp] at this))
  · intro hlen
    match hmem : plan.filter isDockerfileSpec with
    | [] => rw [hmem] at hlen; simp at hlen
    | spec :: rest =>
      have : spec ∈ plan.filter isDockerfileSpec := by rw [hmem]; exact List.mem_cons_self _ _
      exact ⟨spec, (List.mem_filter.mp this).1, (List.mem_filter.mp this).2⟩

/-- Counterexample to C8 as stated: a plan with two Dockerfile entries is
left unchanged by the augmenter, so applying it twice yields a plan with
two container-descriptor entries, not exactly one. -/
theorem ensure_dockerfile_entry_two_dockerfiles :
    dockerEntryCount
        (ensure_dockerfile_entry (ensure_dockerfile_entry
          [{ path := some "Dockerfile", type := none, description := none, instructions := none },
           { path := some "Dockerfile", type := none, description := none, instructions := none }])) =
      2 := by decide

/-- C8 (amended).  The Plan Augmenter is idempotent — applying it twice
yields exactly the plan of applying it once — and the result always
contains at least one container-descriptor entry; it contains exactly one
when the input plan had at most one (a plan that already holds several
Dockerfile entries keeps all of them). -/
theorem ensure_dockerfile_entry_idempotent :
    ∀ plan : List FileSpec,
      ensure_dockerfile_entry (ensure_dockerfile_entry plan) = ensure_dockerfile_entry plan ∧
      1 ≤ dockerEntryCount (ensure_dockerfile_entry plan) ∧
      (dockerEntryCount plan ≤ 1 → dockerEntryCount (ensure_dockerfile_entry plan) = 1) := by
  intro plan
  by_cases h : _plan_contains_dockerfile plan
  · have hone : ensure_dockerfile_entry plan = plan := by
      unfold ensure_dockerfile_entry
      rw [if_pos h]
    have hcount : 1 ≤ dockerEntryCount plan := (plan_contains_dockerfile_count plan).mp h
    refine ⟨by rw [hone, hone], by rw [hone]; exact hcount, ?_⟩
    intro hle
    rw [hone]
    omega
  · have hone : ensure_dockerfile_entry plan = plan ++ [docker_spec plan] := by
      unfold ensure_dockerfile_entry
      rw [if_neg h]
    have hzero : dockerEntryCount plan = 0 := by
      by_contra hne
      exact h ((plan_contains_dockerfile_count plan).mpr (by omega))
    have hdocker : isDockerfileSpec (docker_spec plan) = true := by
      simp [isDockerfileSpec, docker_spec]
      decide
    have hcount : dockerEntryCount (plan ++ [docker_spec plan]) = 1 := by
      unfold dockerEntryCount at hzero ⊢
      rw [List.filter_append]
      simp [hdocker, List.length_eq_zero.mp hzero]
    have hcontains : _plan_contains_dockerfile (plan ++ [docker_spec plan]) = true :=
      (plan_contains_dockerfile_count _).mpr (by omega)
    have htwice : ensure_dockerfile_entry (plan ++ [docker_spec plan]) =
        plan ++ [docker_spec plan] := by
      unfold ensure_dockerfile_entry
      rw [if_pos hcontains]
    exact ⟨by rw [hone, htwice], by rw [hone]; omega, fun _ => by rw [hone]; exact hcount⟩

/-- Witness for C8's amended theorem at a concrete plan with no
Dockerfile entry. -/
theorem ensure_dockerfile_entry_idempotent_witness :
    dockerEntryCount
        (ensure_dockerfile_entry
          [{ path := some "app.py", type := none, description := none, instructions := none }]) =
      1 :=
  (ensure_dockerfile_entry_idempotent _).2.2 (by decide)

/-! ## Claims C7 and C6: the Plan Extractor's error behaviour -/

theorem extract_json_array_eq_of_cleaned (raw cleaned : String)
    (h : extractCleaned raw = .ok cleaned) :
    extract_json_array raw = extractFromCleaned cleaned := by
  unfold extract_json_array
  rw [h]

theorem extract_json_array_eq_of_error (raw : String) (e : ExtractErr)
    (h : extractCleaned raw = .error e) :
    extract_json_array raw = .error e := by
  unfold extract_json_array
  rw [h]

theorem extractFallback_of_snippet (cleaned snippetRaw : String)
    (hb : bracketSnippet cleaned = some snippetRaw) :
    extractFallback cleaned =
      (if pyStrip snippetRaw = "" then .error (.jsonDecode cleaned)
       else
         match json_loads (pyStrip snippetRaw) with
         | some v => .ok v
         | none => .error (.jsonDecode (pyStrip snippetRaw))) := by
  unfold extractFallback
  rw [hb]

theorem extractFallback_of_no_snippet (cleaned : String)
    (hb : bracketSnippet cleaned = none) :
    extractFallback cleaned = .error (.jsonDecode cleaned) := by
  unfold extractFallback
  rw [hb]

theorem extractFromCleaned_of_loads_none (cleaned : String)
    (h : json_loads cleaned = none) :
    extractFromCleaned cleaned = extractFallback cleaned := by
  unfold extractFromCleaned
  rw [h]

theorem extract_ok_or_decode (raw cleaned : String) (h : extractCleaned raw = .ok cleaned) :
    (∃ v, extract_json_array raw = .ok v) ∨
      (∃ doc, extract_json_array raw = .error (.jsonDecode doc)) := by
  rw [extract_json_array_eq_of_cleaned raw cleaned h]
  cases hjl : json_loads cleaned with
  | some v =>
    refine .inl ⟨v, ?_⟩
    unfold extractFromCleaned
    rw [hjl]
  | none =>
    rw [extractFromCleaned_of_loads_none cleaned hjl]
    cases hb : bracketSnippet cleaned with
    | none =>
      rw [extractFallback_of_no_snippet cleaned hb]
      exact .inr ⟨cleaned, rfl⟩
    | some snippetRaw =>
      rw [extractFallback_of_snippet cleaned snippetRaw hb]
      by_cases hs : pyStrip snippetRaw = ""
      · rw [if_pos hs]
        exact .inr ⟨cleaned, rfl⟩
      · rw [if_neg hs]
        cases hjs : json_loads (pyStrip snippetRaw) with
        | some v => exact .inl ⟨v, rfl⟩
        | none => exact .inr ⟨pyStrip snippetRaw, rfl⟩

/-- Counterexample to C7 as stated: `"```\n\n```"` is a JSON array-free
triple-backtick fenced block whose interior (between the opening and
closing fence lines) is empty, yet the extractor reports a JSON decode
error on the text `"```"` — not the empty-response/empty-fence
`ValueError` — because the opening fence line is only removed when it
carries a `json` language tag. -/
theorem extract_untagged_empty_fence_counterexample :
    "```\n\n```" = "```" ++ "\n" ++ "" ++ "\n" ++ "```" ∧
    extract_json_array "```\n\n```" = .error (.jsonDecode "```") :=
  ⟨rfl, rfl⟩

/-- C7 (amended).  The extractor fails with the empty-response error
exactly when the input trims to the empty string, and with the
empty-fence error exactly when the trimmed input starts with a triple
backtick and the code's fence processing (`fenceJoined`: the opening line
is dropped only when its backtick-stripped trimmed content is `"json"`
case-insensitively, the final line is dropped when it starts with a
triple backtick, and the remaining lines are re-joined and trimmed)
leaves the empty string.  In particular an untagged multi-line fence with
an empty interior is not reported as empty (the kept opening fence makes
it a JSON decode error), while a single-line fence such as
`"```[1,2]```"` is reported as an empty fence. -/
theorem extract_empty_error_characterization :
    ∀ raw : String,
      (extract_json_array raw = .error .emptyResponse ↔ pyStrip raw = "") ∧
      (extract_json_array raw = .error .emptyFence ↔
        (pyStrip raw ≠ "" ∧ strStartsWith (pyStrip raw) "```" = true ∧
          fenceJoined (pyStrip raw) = "")) := by
  intro raw
  by_cases h1 : pyStrip raw = ""
  · have he : extract_json_array raw = .error .emptyResponse :=
      extract_json_array_eq_of_error raw _ (by unfold extractCleaned; rw [if_pos h1])
    rw [he]
    constructor <;> simp [h1]
  · by_cases h2 : strStartsWith (pyStrip raw) "```" = true
    · by_cases h3 : fenceJoined (pyStrip raw) = ""
      · have he : extract_json_array raw = .error .emptyFence :=
          extract_json_array_eq_of_error raw _
            (by unfold extractCleaned; rw [if_neg h1, if_pos h2, if_pos h3])
        rw [he]
        constructor <;> simp [h1, h2, h3]
      · have hok : extractCleaned raw = .ok (fenceJoined (pyStrip raw)) := by
          unfold extractCleaned
          rw [if_neg h1, if_pos h2, if_neg h3]
        rcases extract_ok_or_decode raw _ hok with ⟨v, hv⟩ | ⟨doc, hdoc⟩
        · rw [hv]
          constructor <;> simp [h1, h3]
        · rw [hdoc]
          constructor <;> simp [h1, h3]
    · have hok : extractCleaned raw = .ok (pyStrip raw) := by
        unfold extractCleaned
        rw [if_neg h1, if_neg h2]
      rcases extract_ok_or_decode raw _ hok with ⟨v, hv⟩ | ⟨doc, hdoc⟩
      · rw [hv]
        constructor <;> simp [h1, h2]
      · rw [hdoc]
        constructor <;> simp [h1, h2]

/-- Witness for C7's amended theorem: a whitespace-only input is reported
as an empty response, and a `json`-tagged empty fence as an empty fenced
code block. -/
theorem extract_empty_error_characterization_witness :
    extract_json_array "  " = .error .emptyResponse ∧
    extract_json_array "```json\n```" = .error .emptyFence :=
  ⟨(extract_empty_error_characterization "  ").1.mpr rfl,
    (extract_empty_error_characterization "```json\n```").2.mpr ⟨by decide, rfl, rfl⟩⟩

/-- Counterexample to C6 as stated: for `"xx[}]yy"` the strict parse fails
(the original `JSONDecodeError` carries the document `"xx[}]yy"`), the
bracket fallback extracts the snippet `"[}]"`, and the error the extractor
raises is the snippet's own `JSONDecodeError` (document `"[}]"`), not the
original one — `json.loads(snippet)` raising inside the `except` block
replaces the original exception. -/
theorem extract_fallback_raises_snippet_error :
    json_loads "xx[\x7d]yy" = none ∧
    extract_json_array "xx[\x7d]yy" = .error (.jsonDecode "[\x7d]") ∧
    ("[\x7d]" : String) ≠ "xx[\x7d]yy" :=
  ⟨rfl, rfl, by decide⟩

/-- C6 (amended).  For every input on which the strict JSON parse of the
cleaned text fails, the extractor falls back to the substring from the
first `[` to the last `]` inclusively: when that snippet exists and
parses, its value is returned; when it exists but fails to parse, the
raised error is the snippet's own parse error (not the original one);
when no such bracket pair exists (or the trimmed snippet would be empty,
which cannot actually occur) the original strict-parse error on the
cleaned text is propagated. -/
theorem extract_fallback_behavior :
    ∀ raw cleaned : String,
      extractCleaned raw = .ok cleaned →
      json_loads cleaned = none →
      ((∀ snippetRaw, bracketSnippet cleaned = some snippetRaw →
          (∀ v, json_loads (pyStrip snippetRaw) = some v →
            extract_json_array raw = .ok v) ∧
          (pyStrip snippetRaw ≠ "" → json_loads (pyStrip snippetRaw) = none →
            extract_json_array raw = .error (.jsonDecode (pyStrip snippetRaw))) ∧
          (pyStrip snippetRaw = "" →
            extract_json_array raw = .error (.jsonDecode cleaned))) ∧
        (bracketSnippet cleaned = none →
          extract_json_array raw = .error (.jsonDecode cleaned))) := by
  intro raw cleaned hc hjl
  have hbase : extract_json_array raw = extractFallback cleaned := by
    rw [extract_json_array_eq_of_cleaned raw cleaned hc,
      extractFromCleaned_of_loads_none cleaned hjl]
  constructor
  · intro snippetRaw hb
    rw [hbase, extractFallback_of_snippet cleaned snippetRaw hb]
    refine ⟨?_, ?_, ?_⟩
    · intro v hv
      by_cases hs : pyStrip snippetRaw = ""
      · rw [hs] at hv
        rw [show json_loads "" = none from rfl] at hv
        cases hv
      · rw [if_neg hs, hv]
    · intro hs hjs
      rw [if_neg hs, hjs]
    · intro hs
      rw [if_pos hs]
  · intro hb
    rw [hbase, extractFallback_of_no_snippet cleaned hb]

/-- Witness for C6's amended theorem: prose around a valid array is
recovered through the bracket fallback. -/
theorem extract_fallback_behavior_witness :
    extract_json_array "xx[1]yy" = .ok (.arr [.num "1"]) :=
  (((extract_fallback_behavior "xx[1]yy" "xx[1]yy" rfl rfl).1 "[1]" rfl).1
    (.arr [.num "1"]) rfl)

/-! ## Claims C1 and C10: the File Materializer and the Path Sandbox -/

theorem resolveSegs_append_single (l : List String) (seg : String) (h : seg ≠ "..") :
    resolveSegs (l ++ [seg]) = resolveSegs l ++ [seg] := by
  unfold resolveSegs
  rw [List.foldl_append]
  simp [h]

theorem safe_cond_iff (b t : List String) :
    (b = t ∨ (b <+: t ∧ b ≠ t)) ↔ b <+: t := by
  constructor
  · rintro (rfl | ⟨hp, _⟩)
    · exact List.prefix_refl b
    · exact hp
  · intro hp
    by_cases h : b = t
    · exact .inl h
    · exact .inr ⟨hp, h⟩

theorem ensure_safe_path_ok_iff (cwd : List String) (base_dir relative_path : PyPath)
    (t : List String) :
    ensure_safe_path cwd base_dir relative_path = .ok t ↔
      (resolvePath cwd base_dir <+: resolvePath cwd (joinPath base_dir relative_path) ∧
        t = resolvePath cwd (joinPath base_dir relative_path)) := by
  unfold ensure_safe_path
  by_cases h : resolvePath cwd base_dir = resolvePath cwd (joinPath base_dir relative_path) ∨
      (resolvePath cwd base_dir <+: resolvePath cwd (joinPath base_dir relative_path) ∧
        resolvePath cwd base_dir ≠ resolvePath cwd (joinPath base_dir relative_path))
  · rw [if_pos h]
    have hp := (safe_cond_iff _ _).mp h
    constructor
    · intro hok
      cases hok
      exact ⟨hp, rfl⟩
    · rintro ⟨_, rfl⟩
      rfl
  · rw [if_neg h]
    constructor
    · intro hcontr
      cases hcontr
    · rintro ⟨hp, _⟩
      exact absurd ((safe_cond_iff _ _).mpr hp) h

theorem ensure_safe_path_error_iff (cwd : List String) (base_dir relative_path : PyPath)
    (e : PathErr) :
    ensure_safe_path cwd base_dir relative_path = .error e ↔
      (¬ resolvePath cwd base_dir <+: resolvePath cwd (joinPath base_dir relative_path) ∧
        e = .traversal relative_path base_dir) := by
  unfold ensure_safe_path
  by_cases h : resolvePath cwd base_dir = resolvePath cwd (joinPath base_dir relative_path) ∨
      (resolvePath cwd base_dir <+: resolvePath cwd (joinPath base_dir relative_path) ∧
        resolvePath cwd base_dir ≠ resolvePath cwd (joinPath base_dir relative_path))
  · rw [if_pos h]
    have hp := (safe_cond_iff _ _).mp h
    constructor
    · intro hcontr
      cases hcontr
    · rintro ⟨hnp, _⟩
      exact absurd hp hnp
  · rw [if_neg h]
    constructor
    · intro he
      cases he
      exact ⟨fun hp => h ((safe_cond_iff _ _).mpr hp), rfl⟩
    · rintro ⟨_, rfl⟩
      rfl

/-- `output.txt` is a single safe component, so the sandbox always accepts
the default path and resolves it directly under the base directory. -/
theorem ensure_safe_path_output_txt (cwd : List String) (base_dir : PyPath) :
    ensure_safe_path cwd base_dir (parsePath "output.txt") =
      .ok (resolvePath cwd base_dir ++ ["output.txt"]) := by
  have hparse : parsePath "output.txt" = { absolute := false, segs := ["output.txt"] } := rfl
  have hjoin : joinPath base_dir (parsePath "output.txt") =
      { absolute := base_dir.absolute, segs := base_dir.segs ++ ["output.txt"] } := by
    rw [hparse]
    unfold joinPath
    simp
  have hres : resolvePath cwd (joinPath base_dir (parsePath "output.txt")) =
      resolvePath cwd base_dir ++ ["output.txt"] := by
    rw [hjoin]
    unfold resolvePath
    rw [show ((if base_dir.absolute then ([] : List String) else cwd) ++
        (base_dir.segs ++ ["output.txt"])) =
      ((if base_dir.absolute then ([] : List String) else cwd) ++ base_dir.segs) ++
        ["output.txt"] from by rw [List.append_assoc]]
    exact resolveSegs_append_single _ _ (by decide)
  rw [ensure_safe_path_ok_iff, hres]
  exact ⟨⟨["output.txt"], rfl⟩, rfl⟩

theorem writeFilesAux_cons (cwd : List String) (base_dir : PyPath) (blueprint : String)
    (chat : String → String) (spec : FileSpec) (rest : List FileSpec) :
    writeFilesAux cwd base_dir blueprint chat (spec :: rest) =
      match ensure_safe_path cwd base_dir (parsePath (spec.path.getD "output.txt")) with
      | .error e => { result := .error e, writes := [] }
      | .ok target_path =>
        { result :=
            match (writeFilesAux cwd base_dir blueprint chat rest).result with
            | .ok files => .ok (target_path :: files)
            | .error e => .error e
          writes := (target_path, generate_file_content chat spec blueprint) ::
            (writeFilesAux cwd base_dir blueprint chat rest).writes } := rfl

theorem writeFilesAux_append_of_ok (cwd : List String) (base_dir : PyPath) (blueprint : String)
    (chat : String → String) :
    ∀ (pre rest : List FileSpec) (files : List (List String)),
      (writeFilesAux cwd base_dir blueprint chat pre).result = .ok files →
      (writeFilesAux cwd base_dir blueprint chat (pre ++ rest)).writes =
        (writeFilesAux cwd base_dir blueprint chat pre).writes ++
          (writeFilesAux cwd base_dir blueprint chat rest).writes ∧
      (writeFilesAux cwd base_dir blueprint chat pre).writes.length = pre.length := by
  intro pre
  induction pre with
  | nil =>
    intro rest files _
    exact ⟨rfl, rfl⟩
  | cons spec pre ih =>
    intro rest files hok
    rw [writeFilesAux_cons] at hok
    cases h : ensure_safe_path cwd base_dir (parsePath (spec.path.getD "output.txt")) with
    | error e =>
      rw [h] at hok
      cases hok
    | ok target_path =>
      rw [h] at hok
      cases htail : (writeFilesAux cwd base_dir blueprint chat pre).result with
      | error e =>
        rw [htail] at hok
        simp at hok
      | ok files' =>
        have := ih rest files' htail
        rw [show (spec :: pre) ++ rest = spec :: (pre ++ rest) from rfl]
        rw [writeFilesAux_cons, h, writeFilesAux_cons, h]
        simp only [List.cons_append, List.length_cons]
        exact ⟨by rw [this.1], by rw [this.2]⟩

/-- C10.  A plan entry with no `path` field is neither rejected nor
skipped by the File Materializer: the default relative path `output.txt`
is substituted, the Path Sandbox accepts it (resolving it directly under
the base directory), and the content generated for the entry is written
there — here stated for an entry following any successfully materialized
prefix `pre` of the plan. -/
theorem write_files_from_plan_default_path :
    ∀ (cwd : List String) (base_dir : PyPath) (blueprint : String) (chat : String → String)
      (pre post : List FileSpec) (spec : FileSpec) (files : List (List String)),
      spec.path = none →
      (write_files_from_plan cwd pre base_dir blueprint chat).result = .ok files →
      ensure_safe_path cwd base_dir (parsePath "output.txt") =
        .ok (resolvePath cwd base_dir ++ ["output.txt"]) ∧
      (write_files_from_plan cwd (pre ++ spec :: post) base_dir blueprint chat).writes[pre.length]? =
        some (resolvePath cwd base_dir ++ ["output.txt"],
          generate_file_content chat spec blueprint) := by
  intro cwd base_dir blueprint chat pre post spec files hpath hok
  refine ⟨ensure_safe_path_output_txt cwd base_dir, ?_⟩
  unfold write_files_from_plan at hok ⊢
  obtain ⟨happ, hlen⟩ := writeFilesAux_append_of_ok cwd base_dir blueprint chat pre
    (spec :: post) files hok
  rw [happ]
  have hhead : writeFilesAux cwd base_dir blueprint chat (spec :: post) =
      { result :=
          match (writeFilesAux cwd base_dir blueprint chat post).result with
          | .ok fs => .ok ((resolvePath cwd base_dir ++ ["output.txt"]) :: fs)
          | .error e => .error e
        writes := (resolvePath cwd base_dir ++ ["output.txt"],
            generate_file_content chat spec blueprint) ::
          (writeFilesAux cwd base_dir blueprint chat post).writes } := by
    rw [writeFilesAux_cons, hpath]
    rw [show (Option.none).getD "output.txt" = "output.txt" from rfl]
    rw [ensure_safe_path_output_txt cwd base_dir]
  rw [hhead]
  rw [List.getElem?_append_right (by omega)]
  rw [hlen]
  simp

/-- C1.  Every write the File Materializer performs lands on a path that
extends the resolved base directory (equal to or strictly nested under
it), every path in a successfully returned `created_files` list does too,
and a plan containing any entry whose path resolves outside the base
directory makes the whole run fail with the path-traversal error carrying
an offending relative path — the offending file is never written (it
cannot appear in the write log, whose entries all extend the base). -/
theorem write_files_from_plan_sandbox :
    ∀ (cwd : List String) (base_dir : PyPath) (blueprint : String) (chat : String → String)
      (plan : List FileSpec),
      (∀ p c, (p, c) ∈ (write_files_from_plan cwd plan base_dir blueprint chat).writes →
        resolvePath cwd base_dir <+: p) ∧
      (∀ files, (write_files_from_plan cwd plan base_dir blueprint chat).result = .ok files →
        ∀ p ∈ files, resolvePath cwd base_dir <+: p) ∧
      ((∃ spec ∈ plan, ¬ resolvePath cwd base_dir <+:
          resolvePath cwd (joinPath base_dir (parsePath (spec.path.getD "output.txt")))) →
        ∃ rel, (write_files_from_plan cwd plan base_dir blueprint chat).result =
            .error (.traversal rel base_dir) ∧
          ¬ resolvePath cwd base_dir <+: resolvePath cwd (joinPath base_dir rel)) := by
  intro cwd base_dir blueprint chat plan
  unfold write_files_from_plan
  induction plan with
  | nil =>
    refine ⟨?_, ?_, ?_⟩
    · intro p c hmem
      cases hmem
    · intro files hok p hp
      cases hok
      cases hp
    · rintro ⟨spec, hmem, _⟩
      cases hmem
  | cons spec rest ih =>
    cases h : ensure_safe_path cwd base_dir (parsePath (spec.path.getD "output.txt")) with
    | error e =>
      obtain ⟨hviol, herr⟩ := (ensure_safe_path_error_iff cwd base_dir _ e).mp h
      refine ⟨?_, ?_, ?_⟩
      · intro p c hmem
        rw [writeFilesAux_cons, h] at hmem
        cases hmem
      · intro files hok
        rw [writeFilesAux_cons, h] at hok
        cases hok
      · intro _
        refine ⟨parsePath (spec.path.getD "output.txt"), ?_, hviol⟩
        rw [writeFilesAux_cons, h, herr]
    | ok target_path =>
      obtain ⟨hsafe, htarget⟩ := (ensure_safe_path_ok_iff cwd base_dir _ target_path).mp h
      refine ⟨?_, ?_, ?_⟩
      · intro p c hmem
        rw [writeFilesAux_cons, h] at hmem
        rcases List.mem_cons.mp hmem with heq | hmem'
        · cases heq
          rw [htarget]
          exact hsafe
        · exact ih.1 p c hmem'
      · intro files hok
        rw [writeFilesAux_cons, h] at hok
        cases htail : (writeFilesAux cwd base_dir blueprint chat rest).result with
        | error e =>
          rw [htail] at hok
          simp at hok
        | ok files' =>
          rw [htail] at hok
          simp only [Except.ok.injEq] at hok
          intro p hp
          rw [← hok] at hp
          rcases List.mem_cons.mp hp with heq | hp'
          · rw [heq, htarget]
            exact hsafe
          · exact ih.2.1 files' htail p hp'
      · rintro ⟨spec', hmem, hviol2⟩
        rcases List.mem_cons.mp hmem with heq | hmem'
        · subst heq
          exact absurd hsafe hviol2
        · obtain ⟨rel, hres, hrel⟩ := ih.2.2 ⟨spec', hmem', hviol2⟩
          refine ⟨rel, ?_, hrel⟩
          rw [writeFilesAux_cons, h]
          cases htail : (writeFilesAux cwd base_dir blueprint chat rest).result with
          | error e =>
            rw [htail] at hres
            cases hres
            rfl
          | ok files' =>
            rw [htail] at hres
            cases hres

/-- Witness for C1 at a concrete run: a plan whose second entry escapes
via `../../evil` fails with the traversal error for that path. -/
theorem write_files_from_plan_sandbox_witness :
    ∃ rel,
      (write_files_from_plan []
          [{ path := some "a.txt", type := none, description := none, instructions := none },
           { path := some "../../evil", type := none, description := none, instructions := none }]
          (parsePath "/projects/foo") "bp" (fun _ => "content")).result =
        .error (.traversal rel (parsePath "/projects/foo")) ∧
      ¬ resolvePath [] (parsePath "/projects/foo") <+:
          resolvePath [] (joinPath (parsePath "/projects/foo") rel) :=
  (write_files_from_plan_sandbox [] (parsePath "/projects/foo") "bp" (fun _ => "content")
      _).2.2
    ⟨{ path := some "../../evil", type := none, description := none, instructions := none },
      by simp, by decide⟩

/-- Witness for C10 at a concrete run: the entry without a `path` field in
second position is written to `<base>/output.txt`. -/
theorem write_files_from_plan_default_path_witness :
    (write_files_from_plan []
        [{ path := some "a.txt", type := none, description := none, instructions := none },
         { path := none, type := none, description := none, instructions := none }]
        (parsePath "/projects/foo") "bp" (fun _ => "content")).writes[1]? =
      some (["projects", "foo", "output.txt"], "content") := by
  have h := (write_files_from_plan_default_path [] (parsePath "/projects/foo") "bp"
      (fun _ => "content")
      [{ path := some "a.txt", type := none, description := none, instructions := none }] []
      { path := none, type := none, description := none, instructions := none }
      [["projects", "foo", "a.txt"]] rfl (by rfl)).2
  exact h

/-! ## Claim C4: the Build Plan Generator's retry loop -/

theorem attemptBad_iff (reply : String) :
    attemptBad reply ↔ ¬ ∃ items, extract_json_array reply = .ok (.arr items) ∧ items ≠ [] := by
  unfold attemptBad
  constructor
  · rintro hbad ⟨items, hok, hne⟩
    exact hne (hbad items hok)
  · intro hnex items hok
    by_contra hne
    exact hnex ⟨items, hok, hne⟩

theorem generateBuildPlanLoop_exhausted (oracle : Nat → String) (basePrompt : String)
    (total attempt : Nat) (lastErr : Option LoopErr) (lastRaw : Option String) :
    generateBuildPlanLoop oracle basePrompt total attempt 0 lastErr lastRaw =
      { result := .error (.buildPlanError (buildPlanFailMsg total lastErr lastRaw))
        prompts := [] } := rfl

theorem generateBuildPlanLoop_step_good (oracle : Nat → String) (basePrompt : String)
    (total attempt remaining : Nat) (lastErr : Option LoopErr) (lastRaw : Option String)
    (items : List Json) (hx : extract_json_array (oracle attempt) = .ok (.arr items))
    (hne : items ≠ []) :
    generateBuildPlanLoop oracle basePrompt total attempt (remaining + 1) lastErr lastRaw =
      { result :=
          match ensureDockerfileEntryJ items with
          | .ok augmented => .ok augmented
          | .error e => .error (.pyErr e)
        prompts := [if attempt = 0 then basePrompt else basePrompt ++ jsonOnlyReminder] } := by
  have hemp : items.isEmpty = false := by
    cases items with
    | nil => exact absurd rfl hne
    | cons a l => rfl
  rw [generateBuildPlanLoop]
  rw [hx]
  simp only [hemp, Bool.false_eq_true, if_false]
  cases ensureDockerfileEntryJ items <;> rfl

theorem generateBuildPlanLoop_step_bad (oracle : Nat → String) (basePrompt : String)
    (total attempt remaining : Nat) (lastErr : Option LoopErr) (lastRaw : Option String)
    (hbad : attemptBad (oracle attempt)) :
    generateBuildPlanLoop oracle basePrompt total attempt (remaining + 1) lastErr lastRaw =
      { result :=
          (generateBuildPlanLoop oracle basePrompt total (attempt + 1) remaining
            (some (lastErrOf (oracle attempt))) (some (oracle attempt))).result
        prompts := (if attempt = 0 then basePrompt else basePrompt ++ jsonOnlyReminder) ::
          (generateBuildPlanLoop oracle basePrompt total (attempt + 1) remaining
            (some (lastErrOf (oracle attempt))) (some (oracle attempt))).prompts } := by
  rw [generateBuildPlanLoop]
  cases hx : extract_json_array (oracle attempt) with
  | error e =>
    rw [show lastErrOf (oracle attempt) = .extractErr e from by unfold lastErrOf; rw [hx]]
  | ok v =>
    have hlast : lastErrOf (oracle attempt) = .emptyPlan := by
      unfold lastErrOf
      rw [hx]
    rw [hlast]
    cases v with
    | arr items =>
      have hemp : items.isEmpty = true := by
        rw [hbad items hx]
        rfl
      simp only [hemp, if_true]
    | null => rfl
    | bool b => rfl
    | num lexeme => rfl
    | str s => rfl
    | obj members => rfl

/-- Counterexample to C4 as stated: the first attempt's reply `["a"]`
extracts to a non-empty list, yet the generator does not return the
augmented plan — the augmentation's `AttributeError` escapes instead
(compare C9). -/
theorem generate_build_plan_good_attempt_may_raise :
    extract_json_array "[\"a\"]" = .ok (.arr [.str "a"]) ∧
    ([Json.str "a"] : List Json) ≠ [] ∧
    (generate_build_plan (fun _ => "[\"a\"]") "blueprint" 1).result =
      .error (.pyErr .attributeError) :=
  ⟨rfl, by simp, rfl⟩

/-- C4 (amended).  With the default retry budget of 1 extra attempt, the
Build Plan Generator makes at most 2 model calls — the first with the
base prompt unmodified, each subsequent one with the terse JSON-only
reminder appended.  On the first attempt whose reply extracts to a
non-empty list it stops retrying and returns the outcome of the
Dockerfile augmentation: the augmented plan when augmentation succeeds,
and the augmentation's uncaught `AttributeError`/`TypeError` when the
list's elements are not well-formed mappings (see C9).  If every attempt
fails to produce a non-empty list, it raises the build-plan `ValueError`
whose message includes the attempt count, the last parse/validation
error, and the last raw model response text. -/
theorem generate_build_plan_retry_contract :
    ∀ (oracle : Nat → String) (blueprint : String),
      ((generate_build_plan oracle blueprint 1).prompts.length ≤ 2 ∧
        (generate_build_plan oracle blueprint 1).prompts.head? =
          some (buildPlanPrompt blueprint) ∧
        ((generate_build_plan oracle blueprint 1).prompts.length = 2 →
          (generate_build_plan oracle blueprint 1).prompts =
            [buildPlanPrompt blueprint, buildPlanPrompt blueprint ++ jsonOnlyReminder])) ∧
      (∀ items, extract_json_array (oracle 0) = .ok (.arr items) → items ≠ [] →
        (generate_build_plan oracle blueprint 1).prompts = [buildPlanPrompt blueprint] ∧
        (generate_build_plan oracle blueprint 1).result =
          (match ensureDockerfileEntryJ items with
           | .ok augmented => .ok augmented
           | .error e => .error (.pyErr e))) ∧
      (attemptBad (oracle 0) →
        (∀ items, extract_json_array (oracle 1) = .ok (.arr items) → items ≠ [] →
          (generate_build_plan oracle blueprint 1).prompts =
            [buildPlanPrompt blueprint, buildPlanPrompt blueprint ++ jsonOnlyReminder] ∧
          (generate_build_plan oracle blueprint 1).result =
            (match ensureDockerfileEntryJ items with
             | .ok augmented => .ok augmented
             | .error e => .error (.pyErr e))) ∧
        (attemptBad (oracle 1) →
          (generate_build_plan oracle blueprint 1).prompts =
            [buildPlanPrompt blueprint, buildPlanPrompt blueprint ++ jsonOnlyReminder] ∧
          (generate_build_plan oracle blueprint 1).result =
            .error (.buildPlanError
              (buildPlanFailMsg 2 (some (lastErrOf (oracle 1))) (some (oracle 1)))) ∧
          ("2 attempt(s)").data <:+:
            (buildPlanFailMsg 2 (some (lastErrOf (oracle 1))) (some (oracle 1))).data ∧
          (strOfLoopErr (lastErrOf (oracle 1))).data <:+:
            (buildPlanFailMsg 2 (some (lastErrOf (oracle 1))) (some (oracle 1))).data ∧
          (oracle 1).data <:+:
            (buildPlanFailMsg 2 (some (lastErrOf (oracle 1))) (some (oracle 1))).data)) := by
  intro oracle blueprint
  have hmsg : ∀ e raw, buildPlanFailMsg 2 (some e) (some raw) =
      "Could not parse build plan JSON after 2 attempt(s): " ++ strOfLoopErr e ++
        "\nRaw response:\n" ++ raw := by
    intro e raw
    unfold buildPlanFailMsg
    have h2 : (toString 2 : String) = "2" := rfl
    rw [h2]
    rfl
  by_cases hg0 : ∃ items, extract_json_array (oracle 0) = .ok (.arr items) ∧ items ≠ []
  · obtain ⟨items0, hx0, hne0⟩ := hg0
    have hstep : generate_build_plan oracle blueprint 1 =
        { result :=
            match ensureDockerfileEntryJ items0 with
            | .ok augmented => .ok augmented
            | .error e => .error (.pyErr e)
          prompts := [buildPlanPrompt blueprint] } := by
      unfold generate_build_plan
      rw [generateBuildPlanLoop_step_good oracle (buildPlanPrompt blueprint) 2 0 1 none none
        items0 hx0 hne0]
      rfl
    refine ⟨⟨by rw [hstep]; simp, by rw [hstep]; rfl, ?_⟩, ?_, ?_⟩
    · intro hlen
      rw [hstep] at hlen
      simp at hlen
    · intro items hx hne
      rw [hx0] at hx
      simp only [Except.ok.injEq, Json.arr.injEq] at hx
      subst hx
      exact ⟨by rw [hstep], by rw [hstep]⟩
    · intro hbad0
      exact absurd (hbad0 items0 hx0) hne0
  · have hbad0 : attemptBad (oracle 0) := (attemptBad_iff (oracle 0)).mpr hg0
    have hstep0 := generateBuildPlanLoop_step_bad oracle (buildPlanPrompt blueprint) 2 0 1
      none none hbad0
    by_cases hg1 : ∃ items, extract_json_array (oracle 1) = .ok (.arr items) ∧ items ≠ []
    · obtain ⟨items1, hx1, hne1⟩ := hg1
      have hstep1 := generateBuildPlanLoop_step_good oracle (buildPlanPrompt blueprint) 2 1 0
        (some (lastErrOf (oracle 0))) (some (oracle 0)) items1 hx1 hne1
      have hall : generate_build_plan oracle blueprint 1 =
          { result :=
              match ensureDockerfileEntryJ items1 with
              | .ok augmented => .ok augmented
              | .error e => .error (.pyErr e)
            prompts := [buildPlanPrompt blueprint,
              buildPlanPrompt blueprint ++ jsonOnlyReminder] } := by
        unfold generate_build_plan
        rw [hstep0, hstep1]
        rfl
      refine ⟨⟨by rw [hall]; simp, by rw [hall]; rfl, fun _ => by rw [hall]⟩, ?_, ?_⟩
      · intro items hx hne
        exact absurd (hbad0 items hx) hne
      · intro _
        refine ⟨?_, ?_⟩
        · intro items hx hne
          rw [hx1] at hx
          simp only [Except.ok.injEq, Json.arr.injEq] at hx
          subst hx
          exact ⟨by rw [hall], by rw [hall]⟩
        · intro hbad1
          exact absurd (hbad1 items1 hx1) hne1
    · have hbad1 : attemptBad (oracle 1) := (attemptBad_iff (oracle 1)).mpr hg1
      have hstep1 := generateBuildPlanLoop_step_bad oracle (buildPlanPrompt blueprint) 2 1 0
        (some (lastErrOf (oracle 0))) (some (oracle 0)) hbad1
      have hall : generate_build_plan oracle blueprint 1 =
          { result := .error (.buildPlanError
              (buildPlanFailMsg 2 (some (lastErrOf (oracle 1))) (some (oracle 1))))
            prompts := [buildPlanPrompt blueprint,
              buildPlanPrompt blueprint ++ jsonOnlyReminder] } := by
        unfold generate_build_plan
        rw [hstep0, hstep1, generateBuildPlanLoop_exhausted]
        rfl
      refine ⟨⟨by rw [hall]; simp, by rw [hall]; rfl, fun _ => by rw [hall]⟩, ?_, ?_⟩
      · intro items hx hne
        exact absurd (hbad0 items hx) hne
      · intro _
        refine ⟨?_, fun _ => ⟨by rw [hall], by rw [hall], ?_, ?_, ?_⟩⟩
        · intro items hx hne
          exact absurd (hbad1 items hx) hne
        · rw [hmsg]
          refine ⟨"Could not parse build plan JSON after ".data,
            (": " ++ strOfLoopErr (lastErrOf (oracle 1)) ++ "\nRaw response:\n" ++
              (oracle 1)).data, ?_⟩
          simp [List.append_assoc]
        · rw [hmsg]
          refine ⟨("Could not parse build plan JSON after 2 attempt(s): ").data,
            ("\nRaw response:\n" ++ (oracle 1)).data, ?_⟩
          simp [List.append_assoc]
        · rw [hmsg]
          refine ⟨("Could not parse build plan JSON after 2 attempt(s): " ++
              strOfLoopErr (lastErrOf (oracle 1)) ++ "\nRaw response:\n").data, [], ?_⟩
          simp [List.append_assoc]

/-- Witness for C4's amended theorem: the first attempt is unparseable
prose, the second returns `[1]`; the generator succeeds on attempt 2 with
both prompts sent, and the returned plan is attempt 2's array plus the
synthesized Dockerfile entry. -/
theorem generate_build_plan_retry_contract_witness :
    (generate_build_plan (fun i => if i = 0 then "no json here" else "[1]") "bp" 1).prompts =
      [buildPlanPrompt "bp", buildPlanPrompt "bp" ++ jsonOnlyReminder] ∧
    (generate_build_plan (fun i => if i = 0 then "no json here" else "[1]") "bp" 1).result =
      (match ensureDockerfileEntryJ [.num "1"] with
       | .ok augmented => .ok augmented
       | .error e => .error (.pyErr e)) :=
  ((generate_build_plan_retry_contract (fun i => if i = 0 then "no json here" else "[1]")
      "bp").2.2
    (by
      intro items hx
      rw [show extract_json_array (if (0 : Nat) = 0 then "no json here" else "[1]") =
          .error (.jsonDecode "no json here") from rfl] at hx
      cases hx)).1
    [.num "1"] rfl (by simp)

/-! ## Claim C9: non-mapping elements escape the Build Plan Generator -/

/-- C9.  The model reply `["a"]` — a non-empty JSON array whose element is
not an object — passes extraction and the non-empty-list validation, and
then the Dockerfile-augmentation step raises `AttributeError`
(`spec.get` on a string), which is neither retried (a single prompt was
sent despite the retry budget) nor wrapped in the documented build-plan
`ValueError` with raw text attached. -/
theorem generate_build_plan_nonmapping_reply :
    ∀ blueprint : String,
      extract_json_array "[\"a\"]" = .ok (.arr [.str "a"]) ∧
      ensureDockerfileEntryJ [.str "a"] = .error .attributeError ∧
      (generate_build_plan (fun _ => "[\"a\"]") blueprint 1).result =
        .error (.pyErr .attributeError) ∧
      (generate_build_plan (fun _ => "[\"a\"]") blueprint 1).prompts =
        [buildPlanPrompt blueprint] :=
  fun _ => ⟨rfl, rfl, rfl, rfl⟩

/-! ## Claim C3: whitespace-skipping and parser shape lemmas -/

theorem skipWs_cons_of_ws {c : Char} (l : List Char) (h : jsonWs c = true) :
    skipWs (c :: l) = skipWs l := by
  simp [skipWs, List.dropWhile_cons, h]

theorem skipWs_cons_of_not_ws {c : Char} (l : List Char) (h : jsonWs c = false) :
    skipWs (c :: l) = c :: l := by
  simp [skipWs, List.dropWhile_cons, h]

theorem skipWs_append_of_ws {w : List Char} (l : List Char)
    (hw : ∀ c ∈ w, jsonWs c = true) : skipWs (w ++ l) = skipWs l := by
  induction w with
  | nil => rfl
  | cons c w' ih =>
    rw [List.cons_append, skipWs_cons_of_ws _ (hw c (List.mem_cons_self c w'))]
    exact ih (fun d hd => hw d (List.mem_cons_of_mem c hd))

theorem skipWs_spec (l : List Char) :
    ∃ w, l = w ++ skipWs l ∧ (∀ c ∈ w, jsonWs c = true) := by
  induction l with
  | nil => exact ⟨[], rfl, by intro c hc; cases hc⟩
  | cons c l' ih =>
    by_cases h : jsonWs c = true
    · obtain ⟨w, hw1, hw2⟩ := ih
      refine ⟨c :: w, ?_, ?_⟩
      · rw [skipWs_cons_of_ws _ h, List.cons_append, ← hw1]
      · intro d hd
        rcases List.mem_cons.mp hd with rfl | hd'
        · exact h
        · exact hw2 d hd'
    · refine ⟨[], ?_, by intro c hc; cases hc⟩
      rw [skipWs_cons_of_not_ws _ (by simpa using h), List.nil_append]

theorem skipWs_head_not_ws (l : List Char) {c : Char}
    (h : (skipWs l).head? = some c) : jsonWs c = false := by
  induction l with
  | nil => cases h
  | cons d l' ih =>
    by_cases hd : jsonWs d = true
    · rw [skipWs_cons_of_ws _ hd] at h
      exact ih h
    · rw [skipWs_cons_of_not_ws _ (by simpa using hd)] at h
      cases h
      simpa using hd

theorem skipWs_eq_nil_iff (l : List Char) :
    skipWs l = [] ↔ ∀ c ∈ l, jsonWs c = true := by
  induction l with
  | nil =>
    constructor
    · intro _ c hc
      cases hc
    · intro _
      rfl
  | cons c l' ih =>
    by_cases h : jsonWs c = true
    · rw [skipWs_cons_of_ws _ h]
      rw [ih]
      constructor
      · intro hall d hd
        rcases List.mem_cons.mp hd with rfl | hd'
        · exact h
        · exact hall d hd'
      · intro hall d hd
        exact hall d (List.mem_cons_of_mem c hd)
    · rw [skipWs_cons_of_not_ws _ (by simpa using h)]
      constructor
      · intro hcontr
        cases hcontr
      · intro hall
        exact absurd (hall c (List.mem_cons_self c l')) h

theorem skipWs_of_head_not_ws {l : List Char} (h : ∀ c, l.head? = some c → jsonWs c = false) :
    skipWs l = l := by
  cases l with
  | nil => rfl
  | cons c l' => exact skipWs_cons_of_not_ws _ (h c rfl)


/-! ## Claim C3: trimming and line-splitting lemmas -/

theorem string_mk_data (s : String) : String.mk s.data = s := rfl

theorem dropWhile_eq_self_of_head {p : Char → Bool} {l : List Char}
    (h : ∀ c, l.head? = some c → p c = false) : l.dropWhile p = l := by
  cases l with
  | nil => rfl
  | cons c t => simp [List.dropWhile_cons, h c rfl]

theorem head_of_dropWhile_eq_self {p : Char → Bool} {l : List Char}
    (h : l.dropWhile p = l) : ∀ c, l.head? = some c → p c = false := by
  intro c hc
  cases l with
  | nil => cases hc
  | cons d t =>
    cases hc
    by_contra hp
    rw [List.dropWhile_cons, if_pos (by simpa using hp)] at h
    have := congrArg List.length h
    have hle := (List.dropWhile_suffix p (l := t)).length_le
    simp at this
    omega

theorem pyStripList_eq_self {l : List Char}
    (h1 : ∀ c, l.head? = some c → pyWs c = false)
    (h2 : ∀ c, l.getLast? = some c → pyWs c = false) : pyStripList l = l := by
  unfold pyStripList
  rw [dropWhile_eq_self_of_head h1]
  rw [dropWhile_eq_self_of_head (by simpa [List.head?_reverse] using h2)]
  exact List.reverse_reverse l

theorem pyStripList_head {l : List Char} (h : pyStripList l = l) :
    ∀ c, l.head? = some c → pyWs c = false := by
  have hlen := congrArg List.length h
  unfold pyStripList at hlen
  have le1 : ((l.dropWhile pyWs).reverse.dropWhile pyWs).length ≤ (l.dropWhile pyWs).length := by
    have := (List.dropWhile_suffix pyWs (l := (l.dropWhile pyWs).reverse)).length_le
    simpa using this
  have le2 : (l.dropWhile pyWs).length ≤ l.length := (List.dropWhile_suffix pyWs).length_le
  simp only [List.length_reverse] at hlen
  have heq : (l.dropWhile pyWs).length = l.length := by omega
  have hdw : l.dropWhile pyWs = l :=
    (List.dropWhile_suffix pyWs).eq_of_length heq
  exact head_of_dropWhile_eq_self hdw

theorem pyStripList_getLast {l : List Char} (h : pyStripList l = l) :
    ∀ c, l.getLast? = some c → pyWs c = false := by
  have hlen := congrArg List.length h
  unfold pyStripList at hlen
  have le1 : ((l.dropWhile pyWs).reverse.dropWhile pyWs).length ≤ (l.dropWhile pyWs).length := by
    have := (List.dropWhile_suffix pyWs (l := (l.dropWhile pyWs).reverse)).length_le
    simpa using this
  have le2 : (l.dropWhile pyWs).length ≤ l.length := (List.dropWhile_suffix pyWs).length_le
  simp only [List.length_reverse] at hlen
  have heq1 : (l.dropWhile pyWs).length = l.length := by omega
  have hdw : l.dropWhile pyWs = l :=
    (List.dropWhile_suffix pyWs).eq_of_length heq1
  rw [hdw] at hlen
  have heq2 : (l.reverse.dropWhile pyWs).length = l.reverse.length := by
    simp only [List.length_reverse]
    omega
  have hdw2 : l.reverse.dropWhile pyWs = l.reverse :=
    (List.dropWhile_suffix pyWs).eq_of_length heq2
  have hh := head_of_dropWhile_eq_self hdw2
  intro c hc
  exact hh c (by simpa [List.head?_reverse] using hc)

theorem joinNLData_cons (l : List Char) {ls : List (List Char)} (h : ls ≠ []) :
    joinNLData (l :: ls) = l ++ '\n' :: joinNLData ls := by
  cases ls with
  | nil => cases h rfl
  | cons y ls' => rfl

theorem splitlinesAux_cons_nl (cur t : List Char) :
    splitlinesAux cur ('\n' :: t) = cur.reverse :: splitlinesAux [] t := by
  rw [splitlinesAux.eq_def]
  simp

theorem splitlinesAux_cons_other (cur : List Char) {c : Char} (t : List Char)
    (h1 : c ≠ '\n') (h2 : c ≠ '\r') :
    splitlinesAux cur (c :: t) = splitlinesAux (c :: cur) t := by
  rw [splitlinesAux.eq_def]
  simp [h1, h2]

theorem splitlinesAux_nil_eq (cur : List Char) :
    splitlinesAux cur [] = if cur = [] then [] else [cur.reverse] := by
  rw [splitlinesAux.eq_def]

theorem splitlinesAux_append_newline {a : List Char} (cur t : List Char)
    (h : ∀ c ∈ a, c ≠ '\n' ∧ c ≠ '\r') :
    splitlinesAux cur (a ++ '\n' :: t) = (cur.reverse ++ a) :: splitlinesAux [] t := by
  induction a generalizing cur with
  | nil => simp [splitlinesAux_cons_nl]
  | cons c a' ih =>
    have hc := h c (List.mem_cons_self c a')
    have h' : ∀ d ∈ a', d ≠ '\n' ∧ d ≠ '\r' := fun d hd => h d (List.mem_cons_of_mem c hd)
    show splitlinesAux cur (c :: (a' ++ '\n' :: t)) = _
    rw [splitlinesAux_cons_other cur _ hc.1 hc.2, ih _ h']
    simp

theorem splitlinesAux_no_break {a : List Char} (cur : List Char)
    (h : ∀ c ∈ a, c ≠ '\n' ∧ c ≠ '\r') (hne : cur.reverse ++ a ≠ []) :
    splitlinesAux cur a = [cur.reverse ++ a] := by
  induction a generalizing cur with
  | nil =>
    rw [splitlinesAux_nil_eq, if_neg (by intro hc; exact hne (by simp [hc]))]
    simp
  | cons c a' ih =>
    have hc := h c (List.mem_cons_self c a')
    have h' : ∀ d ∈ a', d ≠ '\n' ∧ d ≠ '\r' := fun d hd => h d (List.mem_cons_of_mem c hd)
    rw [splitlinesAux_cons_other cur _ hc.1 hc.2, ih _ h' (by simp)]
    simp

theorem splitlinesAux_joinNL {linesD : List (List Char)} (t : List Char)
    (h : ∀ l ∈ linesD, ∀ c ∈ l, c ≠ '\n' ∧ c ≠ '\r') (hne : linesD ≠ []) :
    splitlinesAux [] (joinNLData linesD ++ '\n' :: t) = linesD ++ splitlinesAux [] t := by
  induction linesD with
  | nil => cases hne rfl
  | cons x ls ih =>
    have hx := h x (List.mem_cons_self x ls)
    cases ls with
    | nil =>
      show splitlinesAux [] (x ++ '\n' :: t) = _
      rw [splitlinesAux_append_newline _ t hx]
      simp
    | cons y ls' =>
      rw [joinNLData_cons x (by simp), List.append_assoc, List.cons_append,
        splitlinesAux_append_newline _ _ hx,
        ih (fun l hl => h l (List.mem_cons_of_mem x hl)) (by simp)]
      simp

/-! ## Claim C3: the scanner's remainder is a suffix of its input -/

theorem parseSimpleEscape_none (f : Nat) (acc : List Char) (r : List Char) :
    parseSimpleEscape f acc none r = none := by
  cases f <;> rfl

theorem parseHexResult_none (f : Nat) (acc : List Char) (r : List Char) :
    parseHexResult f acc none r = none := by
  cases f <;> rfl

theorem parseDecoded_none (f : Nat) (acc : List Char) :
    parseDecoded f acc none = none := by
  cases f <;> rfl

theorem parseMembersKey_none (f : Nat) (acc : List (String × Json)) :
    parseMembersKey f none acc = none := by
  cases f <;> rfl

theorem parseMembersValue_none (f : Nat) (key : String) (acc : List (String × Json)) :
    parseMembersValue f key none acc = none := by
  cases f <;> rfl

theorem parseItemsValue_none (f : Nat) (acc : List Json) :
    parseItemsValue f none acc = none := by
  cases f <;> rfl

theorem decodeUnicodeEscape_suffix {n : Nat} {rest : List Char} {ch : Char} {r : List Char}
    (h : decodeUnicodeEscape n rest = some (ch, r)) : r <:+ rest := by
  unfold decodeUnicodeEscape at h
  split at h
  · split at h
    · rename_i e2 u2 a2 b2 c2 d2 rest2
      split at h
      · rcases hx : hex4 a2 b2 c2 d2 with _ | m <;> rw [hx] at h
        · simp [surrogatePair] at h
        · simp only [surrogatePair] at h
          split at h
          · simp only [Option.some.injEq, Prod.mk.injEq] at h
            rw [← h.2]
            exact ⟨[e2, u2, a2, b2, c2, d2], rfl⟩
          · simp at h
      · simp at h
    · simp at h
  · split at h
    · simp at h
    · simp only [Option.some.injEq, Prod.mk.injEq] at h
      rw [← h.2]

theorem strBlock_suffix (fuel : Nat) :
    (∀ acc cs res, parseStrBody fuel acc cs = some res → res.2 <:+ cs) ∧
    (∀ acc cs res, parseEscape fuel acc cs = some res → res.2 <:+ cs) ∧
    (∀ acc o rest2 res, parseSimpleEscape fuel acc o rest2 = some res → res.2 <:+ rest2) ∧
    (∀ acc cs res, parseUnicodeEscape fuel acc cs = some res → res.2 <:+ cs) ∧
    (∀ acc o rest3 res, parseHexResult fuel acc o rest3 = some res → res.2 <:+ rest3) ∧
    (∀ acc ch r4 res, parseDecoded fuel acc (some (ch, r4)) = some res → res.2 <:+ r4) := by
  induction fuel with
  | zero =>
    refine ⟨?_, ?_, ?_, ?_, ?_, ?_⟩
    · intro _ _ _ h; simp [parseStrBody] at h
    · intro _ _ _ h; simp [parseEscape] at h
    · intro _ _ _ _ h; simp [parseSimpleEscape] at h
    · intro _ _ _ h; simp [parseUnicodeEscape] at h
    · intro _ _ _ _ h; simp [parseHexResult] at h
    · intro _ _ _ _ h; simp [parseDecoded] at h
  | succ fuel ih =>
    obtain ⟨ihS, ihE, ihSE, ihU, ihH, ihD⟩ := ih
    refine ⟨?_, ?_, ?_, ?_, ?_, ?_⟩
    · intro acc cs res h
      cases cs with
      | nil => simp [parseStrBody] at h
      | cons c rest =>
        simp only [parseStrBody] at h
        split at h
        · simp only [Option.some.injEq] at h
          rw [← h]
          exact List.suffix_cons c rest
        · split at h
          · exact (ihE _ _ _ h).trans (List.suffix_cons c rest)
          · split at h
            · simp at h
            · exact (ihS _ _ _ h).trans (List.suffix_cons c rest)
    · intro acc cs res h
      cases cs with
      | nil => simp [parseEscape] at h
      | cons e rest2 =>
        simp only [parseEscape] at h
        split at h
        · exact (ihU _ _ _ h).trans (List.suffix_cons e rest2)
        · exact (ihSE _ _ _ _ h).trans (List.suffix_cons e rest2)
    · intro acc o rest2 res h
      cases o with
      | none => rw [parseSimpleEscape_none] at h; cases h
      | some ch =>
        simp only [parseSimpleEscape] at h
        exact ihS _ _ _ h
    · intro acc cs res h
      match cs with
      | [] => simp [parseUnicodeEscape] at h
      | [a] => simp [parseUnicodeEscape] at h
      | [a, b] => simp [parseUnicodeEscape] at h
      | [a, b, c2] => simp [parseUnicodeEscape] at h
      | a :: b :: c2 :: dh :: rest3 =>
        simp only [parseUnicodeEscape] at h
        exact (ihH _ _ _ _ h).trans ⟨[a, b, c2, dh], rfl⟩
    · intro acc o rest3 res h
      cases o with
      | none => rw [parseHexResult_none] at h; cases h
      | some n =>
        simp only [parseHexResult] at h
        rcases hdec : decodeUnicodeEscape n rest3 with _ | ⟨ch, r4⟩ <;> rw [hdec] at h
        · rw [parseDecoded_none] at h; cases h
        · exact (ihD _ _ _ _ h).trans (decodeUnicodeEscape_suffix hdec)
    · intro acc ch r4 res h
      simp only [parseDecoded] at h
      exact ihS _ _ _ h

theorem parseIntPart_suffix {cs ip r : List Char} (h : parseIntPart cs = some (ip, r)) :
    r <:+ cs := by
  cases cs with
  | nil => simp [parseIntPart] at h
  | cons c rest =>
    simp only [parseIntPart] at h
    split at h
    · simp only [Option.some.injEq, Prod.mk.injEq] at h
      rw [← h.2]
      exact List.suffix_cons c rest
    · split at h
      · simp only [Option.some.injEq, Prod.mk.injEq] at h
        rw [← h.2, List.span_eq_take_drop]
        exact (List.dropWhile_suffix _).trans (List.suffix_cons c rest)
      · simp at h

theorem parseFracPart_suffix {cs fp r : List Char} (h : parseFracPart cs = some (fp, r)) :
    r <:+ cs := by
  match cs with
  | [] => simp [parseFracPart] at h
  | [a] => simp [parseFracPart] at h
  | a :: c :: rest =>
    simp only [parseFracPart] at h
    split at h
    · split at h
      · simp only [Option.some.injEq, Prod.mk.injEq] at h
        rw [← h.2, List.span_eq_take_drop]
        exact (List.dropWhile_suffix _).trans (⟨[a, c], rfl⟩ : rest <:+ a :: c :: rest)
      · simp at h
    · simp at h

theorem parseExpDigits_suffix {cs d r : List Char} (h : parseExpDigits cs = some (d, r)) :
    r <:+ cs := by
  cases cs with
  | nil => simp [parseExpDigits] at h
  | cons c rest =>
    simp only [parseExpDigits] at h
    split at h
    · simp only [Option.some.injEq, Prod.mk.injEq] at h
      rw [← h.2, List.span_eq_take_drop]
      exact (List.dropWhile_suffix _).trans (List.suffix_cons c rest)
    · simp at h

theorem parseExpPart_suffix {cs ep r : List Char} (h : parseExpPart cs = some (ep, r)) :
    r <:+ cs := by
  match cs with
  | [] => simp [parseExpPart] at h
  | [e] =>
    simp only [parseExpPart] at h
    split at h <;> simp at h
  | e :: b :: rest2 =>
    have hsub : ∀ {p1 p2 : List Char}, parseExpDigits rest2 = some (p1, p2) →
        r = p2 → r <:+ e :: b :: rest2 := by
      intro p1 p2 hd hr
      rw [hr]
      exact (parseExpDigits_suffix hd).trans ⟨[e, b], rfl⟩
    simp only [parseExpPart] at h
    split at h
    · split at h
      · rcases hd : parseExpDigits rest2 with _ | ⟨p1, p2⟩ <;> rw [hd] at h
        · simp at h
        · simp only [Option.map_some', Option.some.injEq, Prod.mk.injEq] at h
          exact hsub hd h.2.symm
      · split at h
        · rcases hd : parseExpDigits rest2 with _ | ⟨p1, p2⟩ <;> rw [hd] at h
          · simp at h
          · simp only [Option.map_some', Option.some.injEq, Prod.mk.injEq] at h
            exact hsub hd h.2.symm
        · rcases hd : parseExpDigits (b :: rest2) with _ | ⟨p1, p2⟩ <;> rw [hd] at h
          · simp at h
          · simp only [Option.map_some', Option.some.injEq, Prod.mk.injEq] at h
            rw [← h.2]
            exact (parseExpDigits_suffix hd).trans (List.suffix_cons e (b :: rest2))
    · simp at h

theorem parseSign_suffix (cs : List Char) : (parseSign cs).2 <:+ cs := by
  cases cs with
  | nil => exact List.suffix_rfl
  | cons c rest =>
    simp only [parseSign]
    split
    · exact List.suffix_cons c rest
    · exact List.suffix_rfl

theorem parseNum_suffix {cs lex r : List Char} (h : parseNum cs = some (lex, r)) :
    r <:+ cs := by
  rcases hip : parseIntPart (parseSign cs).2 with _ | ⟨ip, r1⟩
  · simp [parseNum, hip] at h
  · have h1 : r1 <:+ cs := (parseIntPart_suffix hip).trans (parseSign_suffix cs)
    simp only [parseNum, hip] at h
    rcases hfp : parseFracPart r1 with _ | ⟨fp, r2⟩
    · simp only [hfp] at h
      rcases hep : parseExpPart r1 with _ | ⟨ep, r3⟩ <;> simp only [hep] at h <;>
        simp only [Option.some.injEq, Prod.mk.injEq] at h <;> rw [← h.2]
      · exact h1
      · exact (parseExpPart_suffix hep).trans h1
    · have h2 : r2 <:+ cs := (parseFracPart_suffix hfp).trans h1
      simp only [hfp] at h
      rcases hep : parseExpPart r2 with _ | ⟨ep, r3⟩ <;> simp only [hep] at h <;>
        simp only [Option.some.injEq, Prod.mk.injEq] at h <;> rw [← h.2]
      · exact h2
      · exact (parseExpPart_suffix hep).trans h2

theorem mainBlock_suffix (fuel : Nat) :
    (∀ cs res, parseValue fuel cs = some res → res.2 <:+ cs) ∧
    (∀ cs res, parseObjTail fuel cs = some res → res.2 <:+ cs) ∧
    (∀ cs res, parseArrTail fuel cs = some res → res.2 <:+ cs) ∧
    (∀ cs acc res, parseMembers fuel cs acc = some res → res.2 <:+ cs) ∧
    (∀ key r1 acc res, parseMembersKey fuel (some (key, r1)) acc = some res → res.2 <:+ r1) ∧
    (∀ key cs acc res, parseMembersColon fuel key cs acc = some res → res.2 <:+ cs) ∧
    (∀ key v r3 acc res, parseMembersValue fuel key (some (v, r3)) acc = some res →
      res.2 <:+ r3) ∧
    (∀ acc2 cs res, parseMembersSep fuel acc2 cs = some res → res.2 <:+ cs) ∧
    (∀ cs acc res, parseItems fuel cs acc = some res → res.2 <:+ cs) ∧
    (∀ v r1 acc res, parseItemsValue fuel (some (v, r1)) acc = some res → res.2 <:+ r1) ∧
    (∀ acc2 cs res, parseItemsSep fuel acc2 cs = some res → res.2 <:+ cs) := by
  induction fuel with
  | zero =>
    refine ⟨?_, ?_, ?_, ?_, ?_, ?_, ?_, ?_, ?_, ?_, ?_⟩
    · intro _ _ h; simp [parseValue] at h
    · intro _ _ h; simp [parseObjTail] at h
    · intro _ _ h; simp [parseArrTail] at h
    · intro _ _ _ h; simp [parseMembers] at h
    · intro _ _ _ _ h; simp [parseMembersKey] at h
    · intro _ _ _ _ h; simp [parseMembersColon] at h
    · intro _ _ _ _ _ h; simp [parseMembersValue] at h
    · intro _ _ _ h; simp [parseMembersSep] at h
    · intro _ _ _ h; simp [parseItems] at h
    · intro _ _ _ _ h; simp [parseItemsValue] at h
    · intro _ _ _ h; simp [parseItemsSep] at h
  | succ fuel ih =>
    obtain ⟨ihV, ihO, ihA, ihM, ihK, ihC, ihW, ihS, ihI, ihJ, ihT⟩ := ih
    refine ⟨?_, ?_, ?_, ?_, ?_, ?_, ?_, ?_, ?_, ?_, ?_⟩
    · intro cs res h
      cases cs with
      | nil => simp [parseValue] at h
      | cons ch rest =>
        simp only [parseValue] at h
        split at h
        · rcases hsb : parseStrBody fuel [] rest with _ | ⟨p1, p2⟩ <;> rw [hsb] at h
          · exact Option.noConfusion h
          · simp only [Option.map_some', Option.some.injEq] at h
            rw [← h]
            exact ((strBlock_suffix fuel).1 _ _ _ hsb).trans (List.suffix_cons ch rest)
        · split at h
          · exact ((ihO _ _ h).trans (List.dropWhile_suffix _)).trans (List.suffix_cons ch rest)
          · split at h
            · exact ((ihA _ _ h).trans (List.dropWhile_suffix _)).trans
                (List.suffix_cons ch rest)
            · split at h
              · simp only [Option.some.injEq] at h
                rw [← h]
                exact List.drop_suffix _ _
              · split at h
                · simp only [Option.some.injEq] at h
                  rw [← h]
                  exact List.drop_suffix _ _
                · split at h
                  · simp only [Option.some.injEq] at h
                    rw [← h]
                    exact List.drop_suffix _ _
                  · split at h
                    · simp only [Option.some.injEq] at h
                      rw [← h]
                      exact List.drop_suffix _ _
                    · split at h
                      · simp only [Option.some.injEq] at h
                        rw [← h]
                        exact List.drop_suffix _ _
                      · split at h
                        · simp only [Option.some.injEq] at h
                          rw [← h]
                          exact List.drop_suffix _ _
                        · rcases hn : parseNum (ch :: rest) with _ | ⟨p1, p2⟩ <;>
                            rw [hn] at h
                          · exact Option.noConfusion h
                          · simp only [Option.map_some', Option.some.injEq] at h
                            rw [← h]
                            exact parseNum_suffix hn
    · intro cs res h
      cases cs with
      | nil => simp [parseObjTail] at h
      | cons c2 r2 =>
        simp only [parseObjTail] at h
        split at h
        · simp only [Option.some.injEq] at h
          rw [← h]
          exact List.suffix_cons c2 r2
        · exact ihM _ _ _ h
    · intro cs res h
      cases cs with
      | nil => simp [parseArrTail] at h
      | cons c2 r2 =>
        simp only [parseArrTail] at h
        split at h
        · simp only [Option.some.injEq] at h
          rw [← h]
          exact List.suffix_cons c2 r2
        · exact ihI _ _ _ h
    · intro cs acc res h
      cases cs with
      | nil => simp [parseMembers] at h
      | cons ch rest =>
        simp only [parseMembers] at h
        split at h
        · rcases hsb : parseStrBody fuel [] rest with _ | ⟨key, r1⟩ <;> rw [hsb] at h
          · rw [parseMembersKey_none] at h
            exact Option.noConfusion h
          · exact ((ihK _ _ _ _ h).trans ((strBlock_suffix fuel).1 _ _ _ hsb)).trans
              (List.suffix_cons ch rest)
        · exact Option.noConfusion h
    · intro key r1 acc res h
      simp only [parseMembersKey] at h
      exact (ihC _ _ _ _ h).trans (List.dropWhile_suffix _)
    · intro key cs acc res h
      cases cs with
      | nil => simp [parseMembersColon] at h
      | cons c2 r2 =>
        simp only [parseMembersColon] at h
        split at h
        · rcases hv : parseValue fuel (skipWs r2) with _ | ⟨v, r3⟩ <;> rw [hv] at h
          · rw [parseMembersValue_none] at h
            exact Option.noConfusion h
          · exact (((ihW _ _ _ _ _ h).trans (ihV _ _ hv)).trans
              (List.dropWhile_suffix _)).trans (List.suffix_cons c2 r2)
        · exact Option.noConfusion h
    · intro key v r3 acc res h
      simp only [parseMembersValue] at h
      exact (ihS _ _ _ h).trans (List.dropWhile_suffix _)
    · intro acc2 cs res h
      cases cs with
      | nil => simp [parseMembersSep] at h
      | cons c3 r4 =>
        simp only [parseMembersSep] at h
        split at h
        · exact ((ihM _ _ _ h).trans (List.dropWhile_suffix _)).trans (List.suffix_cons c3 r4)
        · split at h
          · simp only [Option.some.injEq] at h
            rw [← h]
            exact List.suffix_cons c3 r4
          · exact Option.noConfusion h
    · intro cs acc res h
      simp only [parseItems] at h
      rcases hv : parseValue fuel cs with _ | ⟨v, r1⟩ <;> rw [hv] at h
      · rw [parseItemsValue_none] at h
        exact Option.noConfusion h
      · exact (ihJ _ _ _ _ h).trans (ihV _ _ hv)
    · intro v r1 acc res h
      simp only [parseItemsValue] at h
      exact (ihT _ _ _ h).trans (List.dropWhile_suffix _)
    · intro acc2 cs res h
      cases cs with
      | nil => simp [parseItemsSep] at h
      | cons c2 r2 =>
        simp only [parseItemsSep] at h
        split at h
        · exact ((ihI _ _ _ h).trans (List.dropWhile_suffix _)).trans (List.suffix_cons c2 r2)
        · split at h
          · simp only [Option.some.injEq] at h
            rw [← h]
            exact List.suffix_cons c2 r2
          · exact Option.noConfusion h

theorem parseValue_suffix {fuel : Nat} {cs : List Char} {v : Json} {rest : List Char}
    (h : parseValue fuel cs = some (v, rest)) : rest <:+ cs :=
  (mainBlock_suffix fuel).1 cs (v, rest) h

/-! ## Claim C3: shape of scanned arrays and objects -/

theorem itemsBlock_shape (fuel : Nat) :
    (∀ cs acc res, parseItems fuel cs acc = some res →
      (∃ acc2, res.1 = Json.arr acc2) ∧ ']' :: res.2 <:+ cs) ∧
    (∀ v r1 acc res, parseItemsValue fuel (some (v, r1)) acc = some res →
      (∃ acc2, res.1 = Json.arr acc2) ∧ ']' :: res.2 <:+ r1) ∧
    (∀ acc2 cs res, parseItemsSep fuel acc2 cs = some res →
      (∃ acc3, res.1 = Json.arr acc3) ∧ ']' :: res.2 <:+ cs) := by
  induction fuel with
  | zero =>
    refine ⟨?_, ?_, ?_⟩
    · intro _ _ _ h; simp [parseItems] at h
    · intro _ _ _ _ h; simp [parseItemsValue] at h
    · intro _ _ _ h; simp [parseItemsSep] at h
  | succ fuel ih =>
    obtain ⟨ih1, ih2, ih3⟩ := ih
    refine ⟨?_, ?_, ?_⟩
    · intro cs acc res h
      simp only [parseItems] at h
      rcases hv : parseValue fuel cs with _ | ⟨v, r1⟩ <;> rw [hv] at h
      · rw [parseItemsValue_none] at h
        exact Option.noConfusion h
      · obtain ⟨hshape, hsuf⟩ := ih2 _ _ _ _ h
        exact ⟨hshape, hsuf.trans (parseValue_suffix hv)⟩
    · intro v r1 acc res h
      simp only [parseItemsValue] at h
      obtain ⟨hshape, hsuf⟩ := ih3 _ _ _ h
      exact ⟨hshape, hsuf.trans (List.dropWhile_suffix _)⟩
    · intro acc2 cs res h
      cases cs with
      | nil => simp [parseItemsSep] at h
      | cons c2 r2 =>
        simp only [parseItemsSep] at h
        split at h
        · obtain ⟨hshape, hsuf⟩ := ih1 _ _ _ h
          exact ⟨hshape, (hsuf.trans (List.dropWhile_suffix _)).trans (List.suffix_cons c2 r2)⟩
        · split at h
          · rename_i hc2
            simp only [Option.some.injEq] at h
            subst hc2
            rw [← h]
            exact ⟨⟨acc2, rfl⟩, List.suffix_rfl⟩
          · exact Option.noConfusion h

theorem membersBlock_obj (fuel : Nat) :
    (∀ cs acc res, parseMembers fuel cs acc = some res → ∃ m, res.1 = Json.obj m) ∧
    (∀ key r1 acc res, parseMembersKey fuel (some (key, r1)) acc = some res →
      ∃ m, res.1 = Json.obj m) ∧
    (∀ key cs acc res, parseMembersColon fuel key cs acc = some res →
      ∃ m, res.1 = Json.obj m) ∧
    (∀ key v r3 acc res, parseMembersValue fuel key (some (v, r3)) acc = some res →
      ∃ m, res.1 = Json.obj m) ∧
    (∀ acc2 cs res, parseMembersSep fuel acc2 cs = some res → ∃ m, res.1 = Json.obj m) := by
  induction fuel with
  | zero =>
    refine ⟨?_, ?_, ?_, ?_, ?_⟩
    · intro _ _ _ h; simp [parseMembers] at h
    · intro _ _ _ _ h; simp [parseMembersKey] at h
    · intro _ _ _ _ h; simp [parseMembersColon] at h
    · intro _ _ _ _ _ h; simp [parseMembersValue] at h
    · intro _ _ _ h; simp [parseMembersSep] at h
  | succ fuel ih =>
    obtain ⟨ih1, ih2, ih3, ih4, ih5⟩ := ih
    refine ⟨?_, ?_, ?_, ?_, ?_⟩
    · intro cs acc res h
      cases cs with
      | nil => simp [parseMembers] at h
      | cons ch rest =>
        simp only [parseMembers] at h
        split at h
        · rcases hsb : parseStrBody fuel [] rest with _ | ⟨key, r1⟩ <;> rw [hsb] at h
          · rw [parseMembersKey_none] at h
            exact Option.noConfusion h
          · exact ih2 _ _ _ _ h
        · exact Option.noConfusion h
    · intro key r1 acc res h
      simp only [parseMembersKey] at h
      exact ih3 _ _ _ _ h
    · intro key cs acc res h
      cases cs with
      | nil => simp [parseMembersColon] at h
      | cons c2 r2 =>
        simp only [parseMembersColon] at h
        split at h
        · rcases hv : parseValue fuel (skipWs r2) with _ | ⟨v, r3⟩ <;> rw [hv] at h
          · rw [parseMembersValue_none] at h
            exact Option.noConfusion h
          · exact ih4 _ _ _ _ _ h
        · exact Option.noConfusion h
    · intro key v r3 acc res h
      simp only [parseMembersValue] at h
      exact ih5 _ _ _ h
    · intro acc2 cs res h
      cases cs with
      | nil => simp [parseMembersSep] at h
      | cons c3 r4 =>
        simp only [parseMembersSep] at h
        split at h
        · exact ih1 _ _ _ h
        · split at h
          · simp only [Option.some.injEq] at h
            rw [← h]
            exact ⟨acc2, rfl⟩
          · exact Option.noConfusion h

theorem parseObjTail_obj {fuel : Nat} {cs : List Char} {res : Json × List Char}
    (h : parseObjTail fuel cs = some res) : ∃ m, res.1 = Json.obj m := by
  cases fuel with
  | zero => simp [parseObjTail] at h
  | succ fuel =>
    cases cs with
    | nil => simp [parseObjTail] at h
    | cons c2 r2 =>
      simp only [parseObjTail] at h
      split at h
      · simp only [Option.some.injEq] at h
        rw [← h]
        exact ⟨[], rfl⟩
      · exact (membersBlock_obj fuel).1 _ _ _ h

theorem parseValue_arr_head {f : Nat} {ch : Char} {rest : List Char} {a : List Json}
    {rest' : List Char} (h : parseValue f (ch :: rest) = some (Json.arr a, rest')) :
    ch = '[' := by
  cases f with
  | zero => simp [parseValue] at h
  | succ f =>
    simp only [parseValue] at h
    split at h
    · rcases hsb : parseStrBody f [] rest with _ | ⟨p1, p2⟩ <;> rw [hsb] at h
      · exact Option.noConfusion h
      · simp at h
    · split at h
      · obtain ⟨m, hm⟩ := parseObjTail_obj h
        simp at hm
      · split at h
        · rename_i hbr
          exact hbr
        · split at h
          · simp at h
          · split at h
            · simp at h
            · split at h
              · simp at h
              · split at h
                · simp at h
                · split at h
                  · simp at h
                  · split at h
                    · simp at h
                    · rcases hn : parseNum (ch :: rest) with _ | ⟨p1, p2⟩ <;> rw [hn] at h
                      · exact Option.noConfusion h
                      · simp at h

theorem parseValue_arr_last {f : Nat} {cs : List Char} {a : List Json} {rest : List Char}
    (h : parseValue f cs = some (Json.arr a, rest)) : ']' :: rest <:+ cs := by
  cases f with
  | zero => simp [parseValue] at h
  | succ f =>
    cases cs with
    | nil => simp [parseValue] at h
    | cons ch rest0 =>
      have hch := parseValue_arr_head h
      subst hch
      simp [parseValue] at h
      rcases hsw : skipWs rest0 with _ | ⟨c2, r2⟩ <;> rw [hsw] at h
      · cases f with
        | zero => simp [parseArrTail] at h
        | succ f2 => simp [parseArrTail] at h
      · cases f with
        | zero => simp [parseArrTail] at h
        | succ f2 =>
          simp only [parseArrTail] at h
          split at h
          · rename_i hc2
            simp only [Option.some.injEq, Prod.mk.injEq] at h
            subst hc2
            have hsuf : ']' :: r2 <:+ rest0 := by
              rw [← hsw]
              exact List.dropWhile_suffix _
            rw [← h.2]
            exact hsuf.trans (List.suffix_cons '[' rest0)
          · obtain ⟨_, hsuf⟩ := (itemsBlock_shape f2).1 _ _ _ h
            have hsuf2 : c2 :: r2 <:+ rest0 := by
              rw [← hsw]
              exact List.dropWhile_suffix _
            exact ((hsuf.trans hsuf2).trans (List.suffix_cons '[' rest0))

theorem jsonWs_pyWs {c : Char} (h : jsonWs c = true) : pyWs c = true := by
  simp only [jsonWs, Bool.or_eq_true, decide_eq_true_eq] at h
  rcases h with ((h | h) | h) | h <;> simp [pyWs, h]

theorem parseNum_backtick (r : List Char) : parseNum ('`' :: r) = none := by
  have hip : parseIntPart ('`' :: r) = none := by
    simp only [parseIntPart]
    rw [if_neg (by decide), if_neg (by decide)]
  have hsign : parseSign ('`' :: r) = ([], '`' :: r) := by
    simp only [parseSign]
    rw [if_neg (by decide)]
  simp [parseNum, hsign, hip]

theorem parseValue_backtick (f : Nat) (r : List Char) : parseValue f ('`' :: r) = none := by
  cases f with
  | zero => rfl
  | succ f =>
    simp only [parseValue]
    simp [List.take_succ_cons, parseNum_backtick]

theorem parseValue_nil (f : Nat) : parseValue f [] = none := by
  cases f <;> rfl

theorem json_loads_arr_shape {J : String} {a : List Json}
    (hstrip : pyStrip J = J) (hparse : json_loads J = some (Json.arr a)) :
    (∃ dr, J.data = '[' :: dr) ∧ (∃ d0, J.data = d0 ++ [']']) := by
  have hsl : pyStripList J.data = J.data := congrArg String.data hstrip
  have hhead := pyStripList_head hsl
  have hlast := pyStripList_getLast hsl
  cases hd : J.data with
  | nil =>
    rw [json_loads, hd] at hparse
    simp [skipWs, parseValue_nil] at hparse
  | cons ch t =>
    have hskip : skipWs J.data = J.data := by
      apply skipWs_of_head_not_ws
      intro c hc
      by_contra hws
      have := jsonWs_pyWs (by simpa using hws)
      rw [hhead c hc] at this
      cases this
    rw [json_loads, hskip] at hparse
    rcases hpv : parseValue (4 * J.data.length + 4) J.data with _ | ⟨v, rest⟩ <;>
      simp only [hpv] at hparse
    · exact Option.noConfusion hparse
    · split at hparse
      · rename_i hrest
        simp only [Option.some.injEq] at hparse
        subst hparse
        have hrnil : rest = [] := by
          by_contra hrne
          obtain ⟨pre, hpre⟩ := parseValue_suffix hpv
          have hlastJ : J.data.getLast? = rest.getLast? := by
            rw [← hpre]
            exact List.getLast?_append_of_ne_nil _ hrne
          rcases hgl : rest.getLast? with _ | c
          · rw [List.getLast?_eq_none_iff] at hgl
            exact hrne hgl
          · have hmem : c ∈ rest := List.mem_of_getLast?_eq_some hgl
            have hws : jsonWs c = true := (skipWs_eq_nil_iff rest).mp hrest c hmem
            have := jsonWs_pyWs hws
            rw [hlast c (by rw [hlastJ]; exact hgl)] at this
            cases this
        subst hrnil
        rw [hd] at hpv
        constructor
        · exact ⟨t, by rw [parseValue_arr_head hpv]⟩
        · obtain ⟨pre, hpre⟩ := parseValue_arr_last hpv
          exact ⟨pre, hpre.symm⟩
      · exact Option.noConfusion hparse

/-! ## Claim C3: evaluating the extractor on a fenced block -/

theorem pyStrip_fix_of_ends {s : String}
    (h1 : ∀ c, s.data.head? = some c → pyWs c = false)
    (h2 : ∀ c, s.data.getLast? = some c → pyWs c = false) : pyStrip s = s := by
  unfold pyStrip
  rw [pyStripList_eq_self h1 h2]

theorem splitlinesList_fence (ftD : List Char) (lines : List String)
    (hft : ∀ c ∈ ftD, c ≠ '\n' ∧ c ≠ '\r')
    (hbf : ∀ l ∈ lines, ∀ c ∈ l.data, c ≠ '\n' ∧ c ≠ '\r')
    (hne : lines ≠ []) :
    splitlinesList
        (ftD ++ '\n' :: (joinNLData (lines.map String.data) ++ '\n' :: ['`', '`', '`']))
      = ftD :: (lines.map String.data ++ [['`', '`', '`']]) := by
  have hb : ∀ l ∈ lines.map String.data, ∀ c ∈ l, c ≠ '\n' ∧ c ≠ '\r' := by
    intro l hl c hc
    obtain ⟨l0, hl0, rfl⟩ := List.mem_map.mp hl
    exact hbf l0 hl0 c hc
  have hn : lines.map String.data ≠ [] := by simpa using hne
  unfold splitlinesList
  rw [splitlinesAux_append_newline _ _ hft, splitlinesAux_joinNL _ hb hn]
  have htick : splitlinesAux [] ['`', '`', '`'] = [['`', '`', '`']] := rfl
  rw [htick]
  simp

theorem extract_fenced_tagged (lines : List String) (v : Json)
    (hbf : ∀ l ∈ lines, ∀ c ∈ l.data, c ≠ '\n' ∧ c ≠ '\r')
    (hne : lines ≠ [])
    (hstrip : pyStrip (joinNL lines) = joinNL lines)
    (hloads : json_loads (joinNL lines) = some v) :
    extract_json_array ("```" ++ "json" ++ "\n" ++ joinNL lines ++ "\n" ++ "```")
      = Except.ok v := by
  have hJne : joinNL lines ≠ "" := by
    intro h
    rw [h] at hloads
    have hnone : json_loads "" = none := rfl
    rw [hnone] at hloads
    exact Option.noConfusion hloads
  have hrawd : ("```" ++ "json" ++ "\n" ++ joinNL lines ++ "\n" ++ "```").data
      = ['`', '`', '`', 'j', 's', 'o', 'n'] ++ '\n' ::
          ((joinNL lines).data ++ '\n' :: ['`', '`', '`']) := by
    simp [String.data_append]
  have hps : pyStrip ("```" ++ "json" ++ "\n" ++ joinNL lines ++ "\n" ++ "```")
      = "```" ++ "json" ++ "\n" ++ joinNL lines ++ "\n" ++ "```" := by
    apply pyStrip_fix_of_ends
    · intro c hc
      rw [hrawd] at hc
      simp at hc
      rw [← hc]
      rfl
    · intro c hc
      rw [hrawd] at hc
      rw [List.getLast?_append_of_ne_nil _ (by simp)] at hc
      rw [show ('\n' :: ((joinNL lines).data ++ '\n' :: ['`', '`', '`']))
            = ['\n'] ++ ((joinNL lines).data ++ '\n' :: ['`', '`', '`']) from rfl] at hc
      rw [List.getLast?_append_of_ne_nil _ (by simp)] at hc
      rw [List.getLast?_append_of_ne_nil _ (by simp)] at hc
      simp at hc
      rw [← hc]
      rfl
  have hrawne : ("```" ++ "json" ++ "\n" ++ joinNL lines ++ "\n" ++ "```") ≠ "" := by
    intro h
    have := congrArg String.data h
    rw [hrawd] at this
    simp at this
  have hstarts : strStartsWith ("```" ++ "json" ++ "\n" ++ joinNL lines ++ "\n" ++ "```")
      "```" = true := by
    unfold strStartsWith
    rw [hrawd]
    simp [List.isPrefixOf]
  have hsplit : splitlines ("```" ++ "json" ++ "\n" ++ joinNL lines ++ "\n" ++ "```")
      = "```json" :: (lines ++ ["```"]) := by
    unfold splitlines
    rw [hrawd]
    rw [show ((joinNL lines).data = joinNLData (lines.map String.data)) from rfl]
    rw [splitlinesList_fence _ _ (by decide) hbf hne]
    have h1 : String.mk ['`', '`', '`', 'j', 's', 'o', 'n'] = "```json" := rfl
    have h2 : String.mk ['`', '`', '`'] = "```" := rfl
    simp [List.map_map, Function.comp_def, string_mk_data, h1, h2]
  have hfj : fenceJoined ("```" ++ "json" ++ "\n" ++ joinNL lines ++ "\n" ++ "```")
      = joinNL lines := by
    unfold fenceJoined
    rw [hsplit]
    dsimp only
    have hcheck : pyLower (pyStrip (stripBackticks "```json")) = "json" := rfl
    rw [if_pos hcheck, List.getLast?_concat]
    dsimp only
    have hcheck2 : strStartsWith (pyStrip "```") "```" = true := rfl
    rw [if_pos hcheck2, List.dropLast_concat]
    exact hstrip
  have hec : extractCleaned ("```" ++ "json" ++ "\n" ++ joinNL lines ++ "\n" ++ "```")
      = Except.ok (joinNL lines) := by
    unfold extractCleaned
    rw [hps, if_neg hrawne, hfj]
    simp only [hstarts, if_true]
    rw [if_neg hJne]
  unfold extract_json_array
  rw [hec]
  dsimp only
  unfold extractFromCleaned
  rw [hloads]

theorem extract_fenced_untagged (lines : List String) (a : List Json)
    (hbf : ∀ l ∈ lines, ∀ c ∈ l.data, c ≠ '\n' ∧ c ≠ '\r')
    (hne : lines ≠ [])
    (hstrip : pyStrip (joinNL lines) = joinNL lines)
    (hloads : json_loads (joinNL lines) = some (Json.arr a)) :
    extract_json_array ("```" ++ "" ++ "\n" ++ joinNL lines ++ "\n" ++ "```")
      = Except.ok (Json.arr a) := by
  obtain ⟨⟨dr, hdr⟩, ⟨d0, hd0⟩⟩ := json_loads_arr_shape hstrip hloads
  have hJne : joinNL lines ≠ "" := by
    intro h
    rw [h] at hloads
    have hnone : json_loads "" = none := rfl
    rw [hnone] at hloads
    exact Option.noConfusion hloads
  have hd0ne : d0 ≠ [] := by
    intro h
    rw [h] at hd0
    rw [hd0] at hdr
    simp at hdr
  have hrawd : ("```" ++ "" ++ "\n" ++ joinNL lines ++ "\n" ++ "```").data
      = ['`', '`', '`'] ++ '\n' :: ((joinNL lines).data ++ '\n' :: ['`', '`', '`']) := by
    simp [String.data_append]
  have hps : pyStrip ("```" ++ "" ++ "\n" ++ joinNL lines ++ "\n" ++ "```")
      = "```" ++ "" ++ "\n" ++ joinNL lines ++ "\n" ++ "```" := by
    apply pyStrip_fix_of_ends
    · intro c hc
      rw [hrawd] at hc
      simp at hc
      rw [← hc]
      rfl
    · intro c hc
      rw [hrawd] at hc
      rw [List.getLast?_append_of_ne_nil _ (by simp)] at hc
      rw [show ('\n' :: ((joinNL lines).data ++ '\n' :: ['`', '`', '`']))
            = ['\n'] ++ ((joinNL lines).data ++ '\n' :: ['`', '`', '`']) from rfl] at hc
      rw [List.getLast?_append_of_ne_nil _ (by simp)] at hc
      rw [List.getLast?_append_of_ne_nil _ (by simp)] at hc
      simp at hc
      rw [← hc]
      rfl
  have hrawne : ("```" ++ "" ++ "\n" ++ joinNL lines ++ "\n" ++ "```") ≠ "" := by
    intro h
    have := congrArg String.data h
    rw [hrawd] at this
    simp at this
  have hstarts : strStartsWith ("```" ++ "" ++ "\n" ++ joinNL lines ++ "\n" ++ "```")
      "```" = true := by
    unfold strStartsWith
    rw [hrawd]
    simp [List.isPrefixOf]
  have hsplit : splitlines ("```" ++ "" ++ "\n" ++ joinNL lines ++ "\n" ++ "```")
      = "```" :: (lines ++ ["```"]) := by
    unfold splitlines
    rw [hrawd]
    rw [show ((joinNL lines).data = joinNLData (lines.map String.data)) from rfl]
    rw [splitlinesList_fence _ _ (by decide) hbf hne]
    have h2 : String.mk ['`', '`', '`'] = "```" := rfl
    simp [List.map_map, Function.comp_def, string_mk_data, h2]
  have hC2d : (joinNL ("```" :: lines)).data
      = '`' :: '`' :: '`' :: '\n' :: (joinNL lines).data := by
    show joinNLData ("```".data :: lines.map String.data)
      = '`' :: '`' :: '`' :: '\n' :: joinNLData (lines.map String.data)
    rw [joinNLData_cons _ (by simpa using hne)]
    rfl
  have hC2strip : pyStrip (joinNL ("```" :: lines)) = joinNL ("```" :: lines) := by
    apply pyStrip_fix_of_ends
    · intro c hc
      rw [hC2d] at hc
      simp at hc
      rw [← hc]
      rfl
    · intro c hc
      rw [hC2d] at hc
      rw [show ('`' :: '`' :: '`' :: '\n' :: (joinNL lines).data)
            = ['`', '`', '`', '\n'] ++ (joinNL lines).data from rfl] at hc
      rw [List.getLast?_append_of_ne_nil _ (by rw [hdr]; simp)] at hc
      rw [hd0, List.getLast?_concat] at hc
      simp at hc
      rw [← hc]
      rfl
  have hC2ne : joinNL ("```" :: lines) ≠ "" := by
    intro h
    have := congrArg String.data h
    rw [hC2d] at this
    simp at this
  have hfj : fenceJoined ("```" ++ "" ++ "\n" ++ joinNL lines ++ "\n" ++ "```")
      = joinNL ("```" :: lines) := by
    unfold fenceJoined
    rw [hsplit]
    dsimp only
    have hcheck : ¬(pyLower (pyStrip (stripBackticks "```")) = "json") := by decide
    rw [if_neg hcheck]
    rw [show ("```" :: (lines ++ ["```"])) = ("```" :: lines) ++ ["```"] from rfl]
    rw [List.getLast?_concat]
    dsimp only
    have hcheck2 : strStartsWith (pyStrip "```") "```" = true := rfl
    rw [if_pos hcheck2, List.dropLast_concat]
    exact hC2strip
  have hec : extractCleaned ("```" ++ "" ++ "\n" ++ joinNL lines ++ "\n" ++ "```")
      = Except.ok (joinNL ("```" :: lines)) := by
    unfold extractCleaned
    rw [hps, if_neg hrawne, hfj]
    simp only [hstarts, if_true]
    rw [if_neg hC2ne]
  have hloadsC2 : json_loads (joinNL ("```" :: lines)) = none := by
    unfold json_loads
    rw [hC2d]
    rw [skipWs_cons_of_not_ws _ (by decide)]
    rw [parseValue_backtick]
  have hfind : strFind (joinNL ("```" :: lines)) '[' = some 4 := by
    unfold strFind
    rw [hC2d, hdr]
    simp [List.findIdx?_cons]
  have hrfind : strRFind (joinNL ("```" :: lines)) ']'
      = some (3 + (joinNL lines).data.length) := by
    unfold strRFind
    rw [hC2d]
    have hrev : ('`' :: '`' :: '`' :: '\n' :: (joinNL lines).data).reverse
        = ']' :: (d0.reverse ++ ['\n', '`', '`', '`']) := by
      rw [hd0]
      simp
    rw [hrev]
    simp [List.findIdx?_cons]
    omega
  have hlen2 : 2 ≤ (joinNL lines).data.length := by
    rw [hd0]
    have hpos := List.length_pos.mpr hd0ne
    simp only [List.length_append, List.length_cons, List.length_nil]
    omega
  have hsnip : bracketSnippet (joinNL ("```" :: lines)) = some (joinNL lines) := by
    unfold bracketSnippet
    rw [hfind, hrfind]
    dsimp only
    rw [if_pos (by omega)]
    unfold strSlice
    rw [hC2d]
    have hdrop : ('`' :: '`' :: '`' :: '\n' :: (joinNL lines).data).drop 4
        = (joinNL lines).data := rfl
    rw [hdrop]
    have harith : 3 + (joinNL lines).data.length + 1 - 4 = (joinNL lines).data.length := by
      omega
    rw [harith, List.take_length]
  unfold extract_json_array
  rw [hec]
  dsimp only
  unfold extractFromCleaned
  rw [hloadsC2]
  unfold extractFallback
  rw [hsnip]
  dsimp only
  rw [hstrip, if_neg hJne, hloads]

/-- C3: for raw text that is a triple-backtick fenced code block — with the
language tag `json` or with no tag — whose interior lines join to a trimmed
text that strict JSON parsing reads as an array, `extract_json_array`
returns exactly the array that strict JSON parsing of the unwrapped
interior returns.  (With the `json` tag the code strips both fence lines
and parses the interior directly; with no tag the opening fence line is
kept, the strict parse fails, and the bracket-scan fallback recovers the
same array.) -/
theorem extract_json_array_fenced_equiv (lines : List String) (tag : String) (a : List Json)
    (htag : tag = "" ∨ tag = "json")
    (hbf : ∀ l ∈ lines, ∀ c ∈ l.data, c ≠ '\n' ∧ c ≠ '\r')
    (hstrip : pyStrip (joinNL lines) = joinNL lines)
    (hparse : json_loads (joinNL lines) = some (Json.arr a)) :
    extract_json_array ("```" ++ tag ++ "\n" ++ joinNL lines ++ "\n" ++ "```")
      = Except.ok (Json.arr a) := by
  have hne : lines ≠ [] := by
    intro h
    rw [h] at hparse
    have hnone : json_loads (joinNL []) = none := rfl
    rw [hnone] at hparse
    exact Option.noConfusion hparse
  rcases htag with rfl | rfl
  · exact extract_fenced_untagged lines a hbf hne hstrip hparse
  · exact extract_fenced_tagged lines (Json.arr a) hbf hne hstrip hparse

/-- Witness for C3 at the concrete fenced block with tag `json` and
interior line `[1, 2]`. -/
theorem extract_json_array_fenced_equiv_witness :
    (("json" : String) = "" ∨ ("json" : String) = "json") ∧
    (∀ l ∈ ["[1, 2]"], ∀ c ∈ l.data, c ≠ '\n' ∧ c ≠ '\r') ∧
    pyStrip (joinNL ["[1, 2]"]) = joinNL ["[1, 2]"] ∧
    json_loads (joinNL ["[1, 2]"]) = some (Json.arr [Json.num "1", Json.num "2"]) ∧
    extract_json_array ("```" ++ "json" ++ "\n" ++ joinNL ["[1, 2]"] ++ "\n" ++ "```")
      = Except.ok (Json.arr [Json.num "1", Json.num "2"]) :=
  ⟨Or.inr rfl, by decide, rfl, rfl,
    extract_json_array_fenced_equiv ["[1, 2]"] "json" [Json.num "1", Json.num "2"]
      (Or.inr rfl) (by decide) rfl rfl⟩

end WTC
